import Mathlib

/-!
Filesystem watching in `lib/fs` (`basicfs_watch.go`) and the event tables of `lib/fswatcher`.

A shallow embedding of `BasicFilesystem.Watch`, `watchLoop` and `eventType`, and of the
per-platform `eventMask` / `removeEventMask` tables.

* Go strings are Lean strings; `strings.HasPrefix` compares their character sequences.
* `notify.Event` is a bit set, held in a natural number (`&` is `&&&`, `|` is `|||`).
* The constants of the external `notify` package are a parameter (`InotifyEvents`,
  `KqueueEvents`); `linux` and `bsd` give the values of the kernel headers.
* The pump goroutine is a transition system over its program points; the backend, the
  consumer of the output channel and the owner of the context are the other actors.
-/

namespace Syncthing

/-! ## Event tables (`lib/fswatcher/event_types_inotify.go`, `event_types_kqueue.go`) -/

/-- The `notify` constants named by the inotify build. -/
structure InotifyEvents where
  InCreate : Nat
  InMovedTo : Nat
  InDelete : Nat
  InDeleteSelf : Nat
  InModify : Nat
  InMovedFrom : Nat
  InMoveSelf : Nat
  InAttrib : Nat
  deriving Repr, DecidableEq

/-- The `notify` constants named by the kqueue build. -/
structure KqueueEvents where
  NoteDelete : Nat
  NoteWrite : Nat
  NoteRename : Nat
  NoteAttrib : Nat
  deriving Repr, DecidableEq

/-- A list of event constants is a set of flags: none is zero and no two share a bit. -/
def Flags (l : List Nat) : Prop :=
  (∀ x ∈ l, x ≠ 0) ∧ l.Pairwise (fun a b => a &&& b = 0)

instance (l : List Nat) : Decidable (Flags l) := by
  unfold Flags; infer_instance

/-- The eight inotify constants, in the order the source names them. -/
def InotifyEvents.all (n : InotifyEvents) : List Nat :=
  [n.InCreate, n.InMovedTo, n.InDelete, n.InDeleteSelf, n.InModify, n.InMovedFrom,
    n.InMoveSelf, n.InAttrib]

/-- The four kqueue constants, in the order the source names them. -/
def KqueueEvents.all (n : KqueueEvents) : List Nat :=
  [n.NoteDelete, n.NoteWrite, n.NoteRename, n.NoteAttrib]

/-- The inotify constants as `<sys/inotify.h>` defines them. -/
def linux : InotifyEvents where
  InCreate := 0x100
  InMovedTo := 0x80
  InDelete := 0x200
  InDeleteSelf := 0x400
  InModify := 0x2
  InMovedFrom := 0x40
  InMoveSelf := 0x800
  InAttrib := 0x4

/-- The kqueue constants as `<sys/event.h>` defines them. -/
def bsd : KqueueEvents where
  NoteDelete := 0x1
  NoteWrite := 0x2
  NoteRename := 0x20
  NoteAttrib := 0x8

namespace Inotify

/-- `fsWatcher.eventMask` of `event_types_inotify.go`. -/
def eventMask (n : InotifyEvents) (ignorePerms : Bool) : Nat :=
  let events := n.InCreate ||| n.InMovedTo ||| n.InDelete |||
    n.InDeleteSelf ||| n.InModify ||| n.InMovedFrom ||| n.InMoveSelf
  if !ignorePerms then events ||| n.InAttrib else events

/-- `removeEventMask` of `event_types_inotify.go`. -/
def removeEventMask (n : InotifyEvents) : Nat :=
  n.InDelete ||| n.InDeleteSelf ||| n.InMovedFrom ||| n.InMoveSelf

end Inotify

namespace Kqueue

/-- `fsWatcher.eventMask` of `event_types_kqueue.go`. -/
def eventMask (n : KqueueEvents) (ignorePerms : Bool) : Nat :=
  let events := n.NoteDelete ||| n.NoteWrite ||| n.NoteRename
  if !ignorePerms then events ||| n.NoteAttrib else events

/-- `removeEventMask` of `event_types_kqueue.go`. -/
def removeEventMask (n : KqueueEvents) : Nat :=
  n.NoteDelete ||| n.NoteRename

end Kqueue

/-! ## Events (`lib/fs`) -/

/-- `fs.EventType`. -/
inductive EventType where
  | NonRemove
  | Remove
  deriving Repr, DecidableEq

/-- `fs.Event`. -/
structure Event where
  Name : String
  Typ : EventType
  deriving Repr, DecidableEq

/-- What `watchLoop` reads of a `notify.EventInfo`: `Path()` and `Event()`. -/
structure EventInfo where
  Path : String
  Event : Nat
  deriving Repr, DecidableEq

/-- The package-level masks of `lib/fs` that `Watch` and `eventType` read. Their
declarations are not among the sources, so they are a parameter. -/
structure EventMasks where
  subEventMask : Nat
  permEventMask : Nat
  rmEventMask : Nat
  deriving Repr, DecidableEq

/-- The masks of `lib/fs` filled in from the inotify table of `lib/fswatcher`. -/
def inotifyMasks (n : InotifyEvents) : EventMasks where
  subEventMask := Inotify.eventMask n true
  permEventMask := n.InAttrib
  rmEventMask := Inotify.removeEventMask n

/-- The masks of `lib/fs` filled in from the kqueue table of `lib/fswatcher`. -/
def kqueueMasks (n : KqueueEvents) : EventMasks where
  subEventMask := Kqueue.eventMask n true
  permEventMask := n.NoteAttrib
  rmEventMask := Kqueue.removeEventMask n

/-- `BasicFilesystem.eventType`. -/
def eventType (rmEventMask : Nat) (notifyType : Nat) : EventType :=
  if notifyType &&& rmEventMask != 0 then EventType.Remove else EventType.NonRemove

/-- The mask `Watch` hands to the backend (lines 38 to 41 of `basicfs_watch.go`). -/
def watchEventMask (m : EventMasks) (ignorePerms : Bool) : Nat :=
  let eventMask := m.subEventMask
  if !ignorePerms then eventMask ||| m.permEventMask else eventMask

/-- A mask contains an event class when it has every bit of the class. -/
def Subscribes (mask cls : Nat) : Prop := mask &&& cls = cls

instance (mask cls : Nat) : Decidable (Subscribes mask cls) := by
  unfold Subscribes; infer_instance

/-! ## Paths -/

/-- `strings.HasPrefix`. -/
def HasPrefix (s pre : String) : Bool :=
  pre.data.isPrefixOf s.data

/-- `strings.TrimPrefix` on character sequences. -/
def trimPrefix (s pre : List Char) : List Char :=
  if pre.isPrefixOf s then s.drop pre.length else s

/-- The elements of a path between its separators. -/
def splitPath : List Char → List (List Char)
  | [] => [[]]
  | ch :: rest =>
    if ch = '/' then [] :: splitPath rest
    else
      match splitPath rest with
      | [] => [[ch]]
      | e :: es => (ch :: e) :: es

/-- The element loop of `filepath.Clean` of the Go library: empty and `.` elements go, a
`..` element takes the element before it with it, unless there is none (then it is kept
in a relative path and goes in a rooted one). `out` holds the kept elements, last first. -/
def cleanElems (rooted : Bool) : List (List Char) → List (List Char) → List (List Char)
  | out, [] => out.reverse
  | out, e :: es =>
    if e = [] ∨ e = ['.'] then cleanElems rooted out es
    else if e = ['.', '.'] then
      match out with
      | o :: out' =>
        if o = ['.', '.'] then cleanElems rooted (e :: out) es
        else cleanElems rooted out' es
      | [] => if rooted then cleanElems rooted [] es else cleanElems rooted [e] es
    else cleanElems rooted (e :: out) es

/-- `filepath.Clean` of the Go library for slash-separated paths. -/
def Clean (path : String) : String :=
  if path = "" then "."
  else
    let rooted := path.data.head? == some '/'
    let body := ['/'].intercalate (cleanElems rooted [] (splitPath path.data))
    if rooted then String.mk ('/' :: body)
    else if body = [] then "." else String.mk body

/-- `filepath.Join` of the Go library on two elements: empty elements are ignored, the
rest is joined by the separator and cleaned. -/
def Join (a b : String) : String :=
  if a = "" ∧ b = "" then ""
  else if a = "" then Clean b
  else if b = "" then Clean a
  else Clean (a ++ "/" ++ b)

/-- Modelled from the spec: `BasicFilesystem.unrooted` is not among the sources. The spec
has a path resolution collaborator that converts an absolute path under a resolved root
to the path relative to that root, and lets `"."` denote the root itself. The root and one
separator are taken off the front of the path, and nothing left over reads `"."`. -/
def unrooted (root path : String) : String :=
  let rest := trimPrefix (trimPrefix path.data root.data) ['/']
  if rest = [] then "." else String.mk rest

/-- The `Matcher` interface. -/
structure Matcher where
  ShouldIgnore : String → Bool

/-- `fakeMatcher` of `basicfs_watch_test.go`. -/
def fakeMatcher (m : String) : Matcher where
  ShouldIgnore := fun name => name == m

/-- What the watcher uses of a `BasicFilesystem`: `URI()` and `unrooted`, a method of the
filesystem that is given the path and nothing else. -/
structure BasicFilesystem where
  URI : String
  unrooted : String → String

/-- A basic filesystem at `root`, as `NewFilesystem(FilesystemTypeBasic, root)` of the test
file makes it, with the `unrooted` modelled above. -/
def newBasicFilesystem (root : String) : BasicFilesystem where
  URI := root
  unrooted := Syncthing.unrooted root

/-- The closure `absShouldIgnore` of `Watch`, the pre-filter given to the backend; `none`
is the panic of line 29. -/
def absShouldIgnore (f : BasicFilesystem) (absName : String) (ignore : Matcher)
    (absPath : String) : Option Bool :=
  if !HasPrefix absPath absName then none
  else
    let relPath := f.unrooted absPath
    some (ignore.ShouldIgnore relPath)

/-- The path is the root or lies below it: the root, a separator, and more. -/
def Within (root path : String) : Prop :=
  path = root ∨ (root ++ "/").data <+: path.data

instance (root path : String) : Decidable (Within root path) := by
  unfold Within; infer_instance

/-! ## The pump (`watchLoop`) -/

/-- The arguments of one `watchLoop` call, with the package-level `backendBuffer` and
`rmEventMask` it reads. -/
structure Session where
  backendBuffer : Nat
  rmEventMask : Nat
  f : BasicFilesystem
  absName : String
  ignore : Matcher

/-- Program points of `watchLoop`. -/
inductive Loc where
  /-- Line 60, about to compare `len(backendChan)` with `backendBuffer`. -/
  | loopHead
  /-- Lines 62 to 68, inside the loop labelled `outer`. -/
  | drain
  /-- Line 70, in the send of the root event on `outChan`. -/
  | sendOverflow
  /-- Line 73, in the `select` over `backendChan` and `ctx.Done()`. -/
  | wait
  /-- Line 82, in the send of an event on `outChan`. -/
  | sendEvent (e : Event)
  /-- Returned at line 85. -/
  | stopped
  /-- The panic of line 76. -/
  | panicked
  deriving Repr, DecidableEq

/-- State of a running session: where the pump is, what `backendChan` buffers (oldest
first), whether `ctx.Done()` is closed, and whether the backend still watches. The channel
is a buffered one, as `Watch` makes it: a raw event handed over to a waiting `select` is
one that is put into the buffer and taken from it. -/
structure Pump where
  loc : Loc
  backendChan : List EventInfo
  done : Bool
  watching : Bool
  deriving Repr, DecidableEq

/-- The actors' moves. -/
inductive Action where
  /-- The pump runs a statement that needs no partner: the test of line 60 or one round
  of the loop `outer`. -/
  | pump
  /-- The `select` of line 73 takes `case ev := <-backendChan`. -/
  | recvBackend
  /-- The `select` of line 73 takes `case <-ctx.Done()`. -/
  | recvDone
  /-- The consumer receives from `outChan`, which completes the pump's send. -/
  | consume
  /-- The backend offers a raw event to `backendChan` without blocking. -/
  | notify (ev : EventInfo)
  /-- The owner of the context cancels it. -/
  | cancel
  deriving Repr, DecidableEq

/-- What a move lets an observer see. -/
inductive Obs where
  /-- Line 60 found the channel full. -/
  | overflow
  /-- Line 64 took a raw event off the channel and dropped it. -/
  | discarded (ev : EventInfo)
  /-- Line 74 took a raw event off the channel. -/
  | received (ev : EventInfo)
  /-- The send of line 70 completed. -/
  | sentOverflow
  /-- The send of line 82 completed. -/
  | sentEvent (e : Event)
  /-- The backend put a raw event into the channel. -/
  | queued (ev : EventInfo)
  /-- The backend found the channel full and lost the raw event. -/
  | lost (ev : EventInfo)
  deriving Repr, DecidableEq

/-- The event of line 70. -/
def rootEvent : Event := ⟨".", EventType.NonRemove⟩

/-- The event of line 82 for a raw event. -/
def canonical (c : Session) (ev : EventInfo) : Event :=
  ⟨c.f.unrooted ev.Path, eventType c.rmEventMask ev.Event⟩

/-- One move of one actor; `none` when the move is not possible in the state. -/
def step (c : Session) (s : Pump) : Action → Option (Pump × List Obs)
  | Action.pump =>
    match s.loc with
    | Loc.loopHead =>
      if s.backendChan.length == c.backendBuffer then
        some ({ s with loc := Loc.drain }, [Obs.overflow])
      else some ({ s with loc := Loc.wait }, [])
    | Loc.drain =>
      match s.backendChan with
      | ev :: rest => some ({ s with backendChan := rest }, [Obs.discarded ev])
      | [] => some ({ s with loc := Loc.sendOverflow }, [])
    | _ => none
  | Action.recvBackend =>
    match s.loc, s.backendChan with
    | Loc.wait, ev :: rest =>
      if !HasPrefix ev.Path c.absName then
        some ({ s with loc := Loc.panicked, backendChan := rest }, [Obs.received ev])
      else
        let relPath := c.f.unrooted ev.Path
        if c.ignore.ShouldIgnore relPath then
          some ({ s with loc := Loc.loopHead, backendChan := rest }, [Obs.received ev])
        else
          some ({ s with loc := Loc.sendEvent ⟨relPath, eventType c.rmEventMask ev.Event⟩,
                         backendChan := rest }, [Obs.received ev])
    | _, _ => none
  | Action.recvDone =>
    match s.loc with
    | Loc.wait =>
      if s.done then some ({ s with loc := Loc.stopped, watching := false }, []) else none
    | _ => none
  | Action.consume =>
    match s.loc with
    | Loc.sendOverflow => some ({ s with loc := Loc.wait }, [Obs.sentOverflow])
    | Loc.sendEvent e => some ({ s with loc := Loc.loopHead }, [Obs.sentEvent e])
    | _ => none
  | Action.notify ev =>
    if s.loc = Loc.panicked ∨ s.watching = false then none
    else if s.backendChan.length < c.backendBuffer then
      some ({ s with backendChan := s.backendChan ++ [ev] }, [Obs.queued ev])
    else some (s, [Obs.lost ev])
  | Action.cancel =>
    if s.loc = Loc.panicked then none else some ({ s with done := true }, [])

/-- A run: the moves in order, with everything observed. -/
def exec (c : Session) (s : Pump) : List Action → Option (Pump × List Obs)
  | [] => some (s, [])
  | a :: as =>
    match step c s a with
    | none => none
    | some (s', o) =>
      match exec c s' as with
      | none => none
      | some (s'', os) => some (s'', o ++ os)

/-- The events the consumer got from `outChan`, in order. -/
def output : List Obs → List Event
  | [] => []
  | Obs.sentOverflow :: os => rootEvent :: output os
  | Obs.sentEvent e :: os => e :: output os
  | _ :: os => output os

/-- The raw events line 74 took off the channel, in order. -/
def dequeued : List Obs → List EventInfo
  | [] => []
  | Obs.received ev :: os => ev :: dequeued os
  | _ :: os => dequeued os

/-- The event the pump holds in an unfinished send. -/
def pending : Loc → List Event
  | Loc.sendOverflow => [rootEvent]
  | Loc.sendEvent e => [e]
  | _ => []

/-- A session as `Watch` starts it: the pump at the top of its loop, nothing buffered,
the context live. -/
def start : Pump := ⟨Loc.loopHead, [], false, true⟩

/-- The raw events line 64 dropped, in order. -/
def discardedOf : List Obs → List EventInfo
  | [] => []
  | Obs.discarded ev :: os => ev :: discardedOf os
  | _ :: os => discardedOf os

/-- The observations up to the first raw event the `select` takes. -/
def beforeReceive : List Obs → List Obs
  | [] => []
  | Obs.received _ :: _ => []
  | o :: os => o :: beforeReceive os

/-- The sequence a list of raw events is relayed as: the raw events whose relative path
is ignored are left out, and each other one becomes the event with its relative path and the
type of its code. -/
def relayed (c : Session) (evs : List EventInfo) : List Event :=
  (evs.filter (fun ev => !c.ignore.ShouldIgnore (c.f.unrooted ev.Path))).map
    (fun ev => ⟨c.f.unrooted ev.Path, eventType c.rmEventMask ev.Event⟩)

/-- The moves in which the pump works off buffered raw events one by one while the consumer
takes every event offered: the test of line 60, the `select`, and the consumer's receive
unless the raw event is ignored. -/
def schedule (c : Session) : List EventInfo → List Action
  | [] => []
  | ev :: evs =>
    [Action.pump, Action.recvBackend] ++
      (if c.ignore.ShouldIgnore (c.f.unrooted ev.Path) then [] else [Action.consume]) ++
      schedule c evs

/-- A session with room for two raw events, on the filesystem at `/r`, watching its root,
with the inotify masks of Linux and the matcher of the tests. -/
def smallSession : Session :=
  ⟨2, (inotifyMasks linux).rmEventMask, newBasicFilesystem "/r", "/r", fakeMatcher "ignored"⟩

/-- The session of the tests: `backendBuffer` is 10 and `Watch(".", ...)` is called on the
filesystem at the test root, here `/r`, with the matcher that ignores `"ignored"`. -/
def testSession : Session :=
  ⟨10, (inotifyMasks linux).rmEventMask, newBasicFilesystem "/r", Join "/r" ".",
    fakeMatcher "ignored"⟩

/-- The raw event of the creation of a file on Linux. -/
def created (path : String) : EventInfo := ⟨path, linux.InCreate⟩

/-- The raw events of the creations of `/r/file<i>` for the `n` numbers from `k` on, as
`TestOverflow` makes them. -/
def creations (k n : Nat) : List EventInfo :=
  (List.range' k n).map (fun i => created ("/r/file" ++ toString i))

/-- One if the pump is in the loop `outer` or in the send of line 70, else zero. -/
def recovering : Loc → Nat
  | Loc.drain => 1
  | Loc.sendOverflow => 1
  | _ => 0

/-- A run with 50 creations in which the channel of the session of the tests is found full
twice: ten creations, the recovery, eleven creations of which the pump takes the first, and
29 more while the pump is in its send, then the second recovery. -/
def twoBursts : List Action :=
  (creations 0 10).map Action.notify ++
  List.replicate 12 Action.pump ++ [Action.consume] ++
  (creations 10 11).map Action.notify ++ [Action.recvBackend] ++
  (creations 21 29).map Action.notify ++ [Action.consume] ++
  List.replicate 12 Action.pump ++ [Action.consume]

/-- A run with 50 creations in which the channel of the session of the tests is never found
full: the pump passes line 60 while the channel is empty, the backend offers the 50 raw
events before the `select` takes the first, and the pump works off the ten that fitted. -/
def burstAfterCheck : List Action :=
  [Action.pump] ++ (creations 0 50).map Action.notify ++
  (List.replicate 9 [Action.recvBackend, Action.consume, Action.pump]).flatten ++
  [Action.recvBackend, Action.consume]

/-- The event of line 82 the pump holds in an unfinished send. -/
def held : Loc → List Event
  | Loc.sendEvent e => [e]
  | _ => []

/-- The pump can reach its return with moves of its own and receives of the consumer. -/
def CanStop (c : Session) (s : Pump) : Prop :=
  ∃ as : List Action,
    (∀ a ∈ as, a = Action.pump ∨ a = Action.consume ∨ a = Action.recvDone) ∧
    ∃ s' tr, exec c s as = some (s', tr) ∧ s'.loc = Loc.stopped

/-! ## `Watch` -/

/-- A Go `error` as `Watch` can return it: the value the backend returned, or a value
made by a call of `errors.New`, which is no value the backend had. -/
inductive GoError (E : Type) where
  | backend (e : E)
  | errorsNew (msg : String)
  deriving Repr, DecidableEq

/-- The text of line 47. -/
def inotifyLimitsText : String :=
  "failed to install inotify handler. Please increase inotify limits, see " ++
  "https://github.com/syncthing/syncthing-inotify" ++
  "#troubleshooting-for-folders-with-many-files-on-linux for more information"

/-- What a call of `Watch` leaves behind: whether the channel it returns is non-nil, the
error it returns, the `watchLoop` goroutines it started (each with its first state), and
whether it called `notify.Stop` and `close` on `backendChan`. -/
structure WatchResult (E : Type) where
  outChan : Bool
  err : Option (GoError E)
  pumps : List (Session × Pump)
  stopCalled : Bool
  closed : Bool

/-- `BasicFilesystem.Watch`. The backend call `notify.WatchWithFilter` and the helper
`reachedMaxUserWatches` are parameters; the backend is given the path, the pre-filter and
the mask, and answers with an error or with none. -/
def Watch {E : Type} (m : EventMasks) (backendBuffer : Nat)
    (WatchWithFilter : String → (String → Option Bool) → Nat → Option E)
    (reachedMaxUserWatches : E → Bool)
    (f : BasicFilesystem) (name : String) (ignore : Matcher) (ignorePerms : Bool) :
    WatchResult E :=
  let absName := Join f.URI name
  let eventMask := watchEventMask m ignorePerms
  match WatchWithFilter (Join absName "...") (absShouldIgnore f absName ignore) eventMask with
  | some err =>
    let err' :=
      if reachedMaxUserWatches err then GoError.errorsNew inotifyLimitsText
      else GoError.backend err
    { outChan := false, err := some err', pumps := [], stopCalled := true, closed := true }
  | none =>
    { outChan := true, err := none,
      pumps := [(⟨backendBuffer, m.rmEventMask, f, absName, ignore⟩, start)],
      stopCalled := false, closed := false }

/-! ## Theorems -/

theorem lor_eq_zero (a b : Nat) : a ||| b = 0 ↔ a = 0 ∧ b = 0 := by
  constructor
  · intro h
    have hb : ∀ i, (a ||| b).testBit i = false := by
      intro i; rw [h]; exact Nat.zero_testBit i
    constructor
    · apply Nat.zero_of_testBit_eq_false
      intro i
      have := hb i
      rw [Nat.testBit_or] at this
      cases ha : a.testBit i <;> simp_all
    · apply Nat.zero_of_testBit_eq_false
      intro i
      have := hb i
      rw [Nat.testBit_or] at this
      cases ha : b.testBit i <;> simp_all
  · rintro ⟨rfl, rfl⟩
    rfl

theorem and_lor_eq_zero (x a b : Nat) : x &&& (a ||| b) = 0 ↔ x &&& a = 0 ∧ x &&& b = 0 := by
  rw [Nat.and_or_distrib_left, lor_eq_zero]

theorem and_lor_ne_zero (x a b : Nat) : x &&& (a ||| b) ≠ 0 ↔ x &&& a ≠ 0 ∨ x &&& b ≠ 0 := by
  rw [Ne, and_lor_eq_zero]
  tauto

theorem lor_and_right_self (a b : Nat) : (a ||| b) &&& b = b := by
  apply Nat.eq_of_testBit_eq
  intro i
  rw [Nat.testBit_and, Nat.testBit_or]
  cases a.testBit i <;> cases b.testBit i <;> rfl

theorem lor_and_distrib_right (a b x : Nat) : (a ||| b) &&& x = (a &&& x) ||| (b &&& x) := by
  rw [Nat.and_comm, Nat.and_or_distrib_left, Nat.and_comm x a, Nat.and_comm x b]

theorem eventType_remove_iff (rm code : Nat) :
    eventType rm code = EventType.Remove ↔ code &&& rm ≠ 0 := by
  unfold eventType
  by_cases h : code &&& rm = 0 <;> simp [h]

theorem eventType_nonRemove_iff (rm code : Nat) :
    eventType rm code = EventType.NonRemove ↔ code &&& rm = 0 := by
  unfold eventType
  by_cases h : code &&& rm = 0 <;> simp [h]

/-- C4: `eventType` returns `Remove` exactly for the codes that share a bit with the remove
mask and `NonRemove` for all others. With the inotify table a code is in the remove class
exactly when it meets `InDelete`, `InDeleteSelf`, `InMovedFrom` or `InMoveSelf`; when the
constants are flags, `InCreate`, `InModify`, `InMovedTo` and `InAttrib` are `NonRemove` and
the four others `Remove`. With the kqueue table the remove class is `NoteDelete` and
`NoteRename`; `NoteWrite` and `NoteAttrib` are `NonRemove`. -/
theorem eventType_classifies :
    (∀ rm code : Nat,
      (eventType rm code = EventType.Remove ↔ code &&& rm ≠ 0) ∧
      (eventType rm code = EventType.NonRemove ↔ code &&& rm = 0) ∧
      (eventType rm code = EventType.Remove ∨ eventType rm code = EventType.NonRemove)) ∧
    (∀ n : InotifyEvents,
      (∀ code : Nat, eventType (inotifyMasks n).rmEventMask code = EventType.Remove ↔
        (code &&& n.InDelete ≠ 0 ∨ code &&& n.InDeleteSelf ≠ 0 ∨
          code &&& n.InMovedFrom ≠ 0 ∨ code &&& n.InMoveSelf ≠ 0)) ∧
      (Flags n.all →
        eventType (inotifyMasks n).rmEventMask n.InCreate = EventType.NonRemove ∧
        eventType (inotifyMasks n).rmEventMask n.InModify = EventType.NonRemove ∧
        eventType (inotifyMasks n).rmEventMask n.InMovedTo = EventType.NonRemove ∧
        eventType (inotifyMasks n).rmEventMask n.InAttrib = EventType.NonRemove ∧
        eventType (inotifyMasks n).rmEventMask n.InDelete = EventType.Remove ∧
        eventType (inotifyMasks n).rmEventMask n.InDeleteSelf = EventType.Remove ∧
        eventType (inotifyMasks n).rmEventMask n.InMovedFrom = EventType.Remove ∧
        eventType (inotifyMasks n).rmEventMask n.InMoveSelf = EventType.Remove)) ∧
    (∀ k : KqueueEvents,
      (∀ code : Nat, eventType (kqueueMasks k).rmEventMask code = EventType.Remove ↔
        (code &&& k.NoteDelete ≠ 0 ∨ code &&& k.NoteRename ≠ 0)) ∧
      (Flags k.all →
        eventType (kqueueMasks k).rmEventMask k.NoteWrite = EventType.NonRemove ∧
        eventType (kqueueMasks k).rmEventMask k.NoteAttrib = EventType.NonRemove ∧
        eventType (kqueueMasks k).rmEventMask k.NoteDelete = EventType.Remove ∧
        eventType (kqueueMasks k).rmEventMask k.NoteRename = EventType.Remove)) := by
  refine ⟨fun rm code => ⟨eventType_remove_iff rm code, eventType_nonRemove_iff rm code, ?_⟩,
    fun n => ⟨fun code => ?_, fun h => ?_⟩, fun k => ⟨fun code => ?_, fun h => ?_⟩⟩
  · unfold eventType
    by_cases h : code &&& rm = 0 <;> simp [h]
  · rw [eventType_remove_iff]
    simp only [inotifyMasks, Inotify.removeEventMask, and_lor_ne_zero]
    tauto
  · simp only [Flags, InotifyEvents.all, List.mem_cons, List.mem_singleton, List.pairwise_cons,
      forall_eq_or_imp, forall_eq] at h
    obtain ⟨⟨h1, h2, h3, h4, h5, h6, h7, h8, -⟩, p1, p2, p3, p4, p5, p6, p7, -⟩ := h
    simp only [List.not_mem_nil, false_implies, implies_true, and_true] at p1 p2 p3 p4 p5 p6 p7
    simp only [eventType_nonRemove_iff, eventType_remove_iff, inotifyMasks,
      Inotify.removeEventMask, and_lor_eq_zero, and_lor_ne_zero, Nat.and_self]
    refine ⟨⟨⟨⟨?_, ?_⟩, ?_⟩, ?_⟩, ⟨⟨⟨?_, ?_⟩, ?_⟩, ?_⟩, ⟨⟨⟨?_, ?_⟩, ?_⟩, ?_⟩, ⟨⟨⟨?_, ?_⟩, ?_⟩, ?_⟩,
      ?_, ?_, ?_, ?_⟩ <;>
      first
        | tauto
        | (rw [Nat.and_comm]; tauto)
  · rw [eventType_remove_iff]
    simp only [kqueueMasks, Kqueue.removeEventMask, and_lor_ne_zero]
  · simp only [Flags, KqueueEvents.all, List.mem_cons, List.mem_singleton, List.pairwise_cons,
      forall_eq_or_imp, forall_eq] at h
    obtain ⟨⟨h1, h2, h3, h4, -⟩, p1, p2, p3, -⟩ := h
    simp only [List.not_mem_nil, false_implies, implies_true, and_true] at p1 p2 p3
    simp only [eventType_nonRemove_iff, eventType_remove_iff, kqueueMasks,
      Kqueue.removeEventMask, and_lor_eq_zero, and_lor_ne_zero, Nat.and_self]
    refine ⟨⟨?_, ?_⟩, ⟨?_, ?_⟩, ?_, ?_⟩ <;>
      first
        | tauto
        | (rw [Nat.and_comm]; tauto)

/-- Witness of C4 at the inotify constants of Linux and the kqueue constants of the BSDs: a
rename is `Remove` for the old name and `NonRemove` for the new one. -/
theorem eventType_classifies_witness :
    Flags linux.all ∧ Flags bsd.all ∧
    eventType (inotifyMasks linux).rmEventMask linux.InMovedFrom = EventType.Remove ∧
    eventType (inotifyMasks linux).rmEventMask linux.InMovedTo = EventType.NonRemove ∧
    eventType (kqueueMasks bsd).rmEventMask bsd.NoteRename = EventType.Remove :=
  ⟨by decide, by decide,
    ((eventType_classifies.2.1 linux).2 (by decide)).2.2.2.2.2.2.1,
    ((eventType_classifies.2.1 linux).2 (by decide)).2.2.1,
    ((eventType_classifies.2.2 bsd).2 (by decide)).2.2.2⟩

theorem and_eq_zero_not_subscribes (mask cls : Nat) (h0 : cls ≠ 0) (h : mask &&& cls = 0) :
    ¬ Subscribes mask cls := by
  unfold Subscribes
  rw [h]
  exact fun e => h0 e.symm

/-- C5 (claim as stated fails): with the fourth argument `false` the mask `Watch` passes has
the attribute class and is not the base set, and with `true` it has not; so on both tables
the mask has the attribute class exactly when the boolean is not `true`. -/
theorem watchEventMask_attrib_when_false :
    Subscribes (watchEventMask (inotifyMasks linux) false) linux.InAttrib ∧
    watchEventMask (inotifyMasks linux) false ≠
      (linux.InCreate ||| linux.InMovedTo ||| linux.InDelete ||| linux.InDeleteSelf |||
        linux.InModify ||| linux.InMovedFrom ||| linux.InMoveSelf) ∧
    ¬ Subscribes (watchEventMask (inotifyMasks linux) true) linux.InAttrib ∧
    Subscribes (watchEventMask (kqueueMasks bsd) false) bsd.NoteAttrib ∧
    watchEventMask (kqueueMasks bsd) false ≠
      (bsd.NoteDelete ||| bsd.NoteWrite ||| bsd.NoteRename) ∧
    ¬ Subscribes (watchEventMask (kqueueMasks bsd) true) bsd.NoteAttrib := by
  decide

/-- C5 (amended): the fourth argument of `Watch` is `ignorePerms`; the mask passed to the
backend has the attribute class (`InAttrib`, `NoteAttrib`) exactly when it is `false`. When
it is `true` the mask is the base set and shares no bit with the attribute class. The mask
is the one `eventMask` of `lib/fswatcher` computes. -/
theorem watchEventMask_attrib (ignorePerms : Bool) :
    (∀ n : InotifyEvents, Flags n.all →
      (Subscribes (watchEventMask (inotifyMasks n) ignorePerms) n.InAttrib ↔
        ignorePerms = false) ∧
      (ignorePerms = true →
        watchEventMask (inotifyMasks n) ignorePerms =
          (n.InCreate ||| n.InMovedTo ||| n.InDelete ||| n.InDeleteSelf |||
            n.InModify ||| n.InMovedFrom ||| n.InMoveSelf) ∧
        watchEventMask (inotifyMasks n) ignorePerms &&& n.InAttrib = 0) ∧
      watchEventMask (inotifyMasks n) ignorePerms = Inotify.eventMask n ignorePerms) ∧
    (∀ k : KqueueEvents, Flags k.all →
      (Subscribes (watchEventMask (kqueueMasks k) ignorePerms) k.NoteAttrib ↔
        ignorePerms = false) ∧
      (ignorePerms = true →
        watchEventMask (kqueueMasks k) ignorePerms =
          (k.NoteDelete ||| k.NoteWrite ||| k.NoteRename) ∧
        watchEventMask (kqueueMasks k) ignorePerms &&& k.NoteAttrib = 0) ∧
      watchEventMask (kqueueMasks k) ignorePerms = Kqueue.eventMask k ignorePerms) := by
  constructor
  · intro n h
    simp only [Flags, InotifyEvents.all, List.mem_cons, List.mem_singleton, List.pairwise_cons,
      forall_eq_or_imp, forall_eq] at h
    obtain ⟨⟨-, -, -, -, -, -, -, h8, -⟩, p1, p2, p3, p4, p5, p6, p7, -⟩ := h
    simp only [List.not_mem_nil, false_implies, implies_true, and_true] at p1 p2 p3 p4 p5 p6 p7
    have hbase : (n.InCreate ||| n.InMovedTo ||| n.InDelete ||| n.InDeleteSelf |||
        n.InModify ||| n.InMovedFrom ||| n.InMoveSelf) &&& n.InAttrib = 0 := by
      simp only [lor_and_distrib_right, lor_eq_zero]
      tauto
    cases ignorePerms
    · refine ⟨⟨fun _ => rfl, fun _ => ?_⟩, fun hf => Bool.noConfusion hf, rfl⟩
      exact lor_and_right_self _ _
    · refine ⟨⟨fun hs => ?_, fun hf => Bool.noConfusion hf⟩, fun _ => ⟨rfl, hbase⟩, rfl⟩
      exact absurd hs (and_eq_zero_not_subscribes _ _ h8 hbase)
  · intro k h
    simp only [Flags, KqueueEvents.all, List.mem_cons, List.mem_singleton, List.pairwise_cons,
      forall_eq_or_imp, forall_eq] at h
    obtain ⟨⟨-, -, -, h4, -⟩, p1, p2, p3, -⟩ := h
    simp only [List.not_mem_nil, false_implies, implies_true, and_true] at p1 p2 p3
    have hbase : (k.NoteDelete ||| k.NoteWrite ||| k.NoteRename) &&& k.NoteAttrib = 0 := by
      simp only [lor_and_distrib_right, lor_eq_zero]
      tauto
    cases ignorePerms
    · refine ⟨⟨fun _ => rfl, fun _ => ?_⟩, fun hf => Bool.noConfusion hf, rfl⟩
      exact lor_and_right_self _ _
    · refine ⟨⟨fun hs => ?_, fun hf => Bool.noConfusion hf⟩, fun _ => ⟨rfl, hbase⟩, rfl⟩
      exact absurd hs (and_eq_zero_not_subscribes _ _ h4 hbase)

/-- Witness of C5 (amended) at the constants of Linux and of the BSDs, for `ignorePerms`
set: the masks are the base sets `0xfc2` and `0x23`. -/
theorem watchEventMask_attrib_witness :
    Flags linux.all ∧ Flags bsd.all ∧
    watchEventMask (inotifyMasks linux) true = 0xfc2 ∧
    watchEventMask (kqueueMasks bsd) true = 0x23 ∧
    ¬ Subscribes (watchEventMask (inotifyMasks linux) true) linux.InAttrib :=
  ⟨by decide, by decide,
    (((watchEventMask_attrib true).1 linux (by decide)).2.1 rfl).1.trans (by decide),
    (((watchEventMask_attrib true).2 bsd (by decide)).2.1 rfl).1.trans (by decide),
    fun hs => Bool.noConfusion (((watchEventMask_attrib true).1 linux (by decide)).1.mp hs)⟩

theorem Watch_of_none {E : Type} (m : EventMasks) (backendBuffer : Nat)
    (WatchWithFilter : String → (String → Option Bool) → Nat → Option E)
    (reachedMaxUserWatches : E → Bool)
    (f : BasicFilesystem) (name : String) (ignore : Matcher) (ignorePerms : Bool)
    (h : WatchWithFilter (Join (Join f.URI name) "...")
      (absShouldIgnore f (Join f.URI name) ignore) (watchEventMask m ignorePerms) = none) :
    Watch m backendBuffer WatchWithFilter reachedMaxUserWatches f name ignore ignorePerms =
      WatchResult.mk true none
        [(⟨backendBuffer, m.rmEventMask, f, Join f.URI name, ignore⟩, start)] false false := by
  simp only [Watch, h]

theorem Watch_of_some {E : Type} (m : EventMasks) (backendBuffer : Nat)
    (WatchWithFilter : String → (String → Option Bool) → Nat → Option E)
    (reachedMaxUserWatches : E → Bool)
    (f : BasicFilesystem) (name : String) (ignore : Matcher) (ignorePerms : Bool) (e : E)
    (h : WatchWithFilter (Join (Join f.URI name) "...")
      (absShouldIgnore f (Join f.URI name) ignore) (watchEventMask m ignorePerms) = some e) :
    Watch m backendBuffer WatchWithFilter reachedMaxUserWatches f name ignore ignorePerms =
      WatchResult.mk false
        (some (if reachedMaxUserWatches e then GoError.errorsNew inotifyLimitsText
          else GoError.backend e)) [] true true := by
  simp only [Watch, h]

/-- C6: `Watch` returns an error, no channel and starts no pump exactly when the backend
call failed. When `reachedMaxUserWatches` holds of the failure the error is the one made
from the inotify limits text, which no failure of the other kind gives; otherwise it is the
backend's error. On success there is no error, a channel, and one pump, at the top of its
loop with the watched root `Join(URI, name)`. -/
theorem Watch_setup {E : Type} (m : EventMasks) (backendBuffer : Nat)
    (WatchWithFilter : String → (String → Option Bool) → Nat → Option E)
    (reachedMaxUserWatches : E → Bool)
    (f : BasicFilesystem) (name : String) (ignore : Matcher) (ignorePerms : Bool) :
    let r := Watch m backendBuffer WatchWithFilter reachedMaxUserWatches f name ignore
      ignorePerms
    let res := WatchWithFilter (Join (Join f.URI name) "...")
      (absShouldIgnore f (Join f.URI name) ignore) (watchEventMask m ignorePerms)
    ((r.err ≠ none ∧ r.outChan = false ∧ r.pumps = []) ↔ res ≠ none) ∧
    (∀ e, res = some e → reachedMaxUserWatches e = true →
      r.err = some (GoError.errorsNew inotifyLimitsText) ∧
      ∀ e', r.err ≠ some (GoError.backend e')) ∧
    (∀ e, res = some e → reachedMaxUserWatches e = false →
      r.err = some (GoError.backend e)) ∧
    (res = none →
      r.err = none ∧ r.outChan = true ∧ r.pumps.length = 1 ∧
      r.pumps.map (fun p => (p.1.absName, p.2)) = [(Join f.URI name, start)]) := by
  intro r res
  cases hres : WatchWithFilter (Join (Join f.URI name) "...")
      (absShouldIgnore f (Join f.URI name) ignore) (watchEventMask m ignorePerms) with
  | none =>
    have hr := Watch_of_none m backendBuffer WatchWithFilter reachedMaxUserWatches f name
      ignore ignorePerms hres
    have hres' : res = none := hres
    simp only [r, hr, hres']
    simp
  | some e0 =>
    have hr := Watch_of_some m backendBuffer WatchWithFilter reachedMaxUserWatches f name
      ignore ignorePerms e0 hres
    have hres' : res = some e0 := hres
    simp only [r, hr, hres']
    refine ⟨by simp, ?_, ?_, by simp⟩
    · intro e he hm
      cases he
      simp [hm]
    · intro e he hm
      cases he
      simp [hm]

/-- Witness of C6: a backend that fails with the kernel's "no space left on device", which
is the sign of exhausted watches, and one that fails with "permission denied". -/
theorem Watch_setup_witness :
    (Watch (inotifyMasks linux) 500 (fun _ _ _ => some "no space left on device")
      (fun e => e == "no space left on device") (newBasicFilesystem "/r") "."
      (fakeMatcher "") false).err = some (GoError.errorsNew inotifyLimitsText) ∧
    (Watch (inotifyMasks linux) 500 (fun _ _ _ => some "permission denied")
      (fun e => e == "no space left on device") (newBasicFilesystem "/r") "."
      (fakeMatcher "") false).err = some (GoError.backend "permission denied") ∧
    (Watch (inotifyMasks linux) 500 (fun _ _ _ => (none : Option String))
      (fun e => e == "no space left on device") (newBasicFilesystem "/r") "."
      (fakeMatcher "") false).pumps.length = 1 :=
  ⟨((Watch_setup (inotifyMasks linux) 500 (fun _ _ _ => some "no space left on device")
      (fun e => e == "no space left on device") (newBasicFilesystem "/r") "."
      (fakeMatcher "") false).2.1 "no space left on device" rfl (by decide)).1,
   (Watch_setup (inotifyMasks linux) 500 (fun _ _ _ => some "permission denied")
      (fun e => e == "no space left on device") (newBasicFilesystem "/r") "."
      (fakeMatcher "") false).2.2.1 "permission denied" rfl (by decide),
   ((Watch_setup (inotifyMasks linux) 500 (fun _ _ _ => (none : Option String))
      (fun e => e == "no space left on device") (newBasicFilesystem "/r") "."
      (fakeMatcher "") false).2.2.2 rfl).2.2.1⟩

/-! ### Runs -/

theorem exec_cons_some (c : Session) (s s' : Pump) (a : Action) (as : List Action)
    (tr : List Obs) :
    exec c s (a :: as) = some (s', tr) ↔
      ∃ s1 o os, step c s a = some (s1, o) ∧ exec c s1 as = some (s', os) ∧ tr = o ++ os := by
  simp only [exec]
  cases h1 : step c s a with
  | none => simp
  | some p =>
    obtain ⟨s1, o⟩ := p
    dsimp only
    cases h2 : exec c s1 as with
    | none => simp [h2]
    | some q =>
      obtain ⟨s2, os⟩ := q
      simp only [Option.some.injEq, Prod.mk.injEq]
      constructor
      · rintro ⟨rfl, rfl⟩
        exact ⟨s1, o, os, ⟨rfl, rfl⟩, h2, rfl⟩
      · rintro ⟨s1', o', os', ⟨rfl, rfl⟩, h3, rfl⟩
        rw [h2] at h3
        simp only [Option.some.injEq, Prod.mk.injEq] at h3
        obtain ⟨rfl, rfl⟩ := h3
        exact ⟨rfl, rfl⟩

theorem exec_append (c : Session) (s s1 s2 : Pump) (as bs : List Action) (t1 t2 : List Obs)
    (h1 : exec c s as = some (s1, t1)) (h2 : exec c s1 bs = some (s2, t2)) :
    exec c s (as ++ bs) = some (s2, t1 ++ t2) := by
  induction as generalizing s t1 with
  | nil =>
    simp only [exec, Option.some.injEq, Prod.mk.injEq] at h1
    obtain ⟨rfl, rfl⟩ := h1
    simpa using h2
  | cons a as ih =>
    rw [exec_cons_some] at h1
    obtain ⟨s', o, os, hs, he, rfl⟩ := h1
    rw [List.cons_append, exec_cons_some]
    exact ⟨s', o, os ++ t2, hs, ih s' os he, by simp⟩

theorem output_append (t1 t2 : List Obs) : output (t1 ++ t2) = output t1 ++ output t2 := by
  induction t1 with
  | nil => rfl
  | cons o os ih => cases o <;> simp [output, ih]

theorem dequeued_append (t1 t2 : List Obs) :
    dequeued (t1 ++ t2) = dequeued t1 ++ dequeued t2 := by
  induction t1 with
  | nil => rfl
  | cons o os ih => cases o <;> simp [dequeued, ih]

theorem discardedOf_append (t1 t2 : List Obs) :
    discardedOf (t1 ++ t2) = discardedOf t1 ++ discardedOf t2 := by
  induction t1 with
  | nil => rfl
  | cons o os ih => cases o <;> simp [discardedOf, ih]

theorem beforeReceive_split (pre post : List Obs) (ev : EventInfo) (h : dequeued pre = []) :
    beforeReceive (pre ++ Obs.received ev :: post) = pre := by
  induction pre with
  | nil => rfl
  | cons o os ih =>
    cases o <;> simp_all [dequeued, beforeReceive]

/-! ### What each move does -/

theorem step_pump_inv (c : Session) (s s1 : Pump) (o : List Obs)
    (h : step c s Action.pump = some (s1, o)) :
    (s.loc = Loc.loopHead ∧ s.backendChan.length = c.backendBuffer ∧
      s1 = { s with loc := Loc.drain } ∧ o = [Obs.overflow]) ∨
    (s.loc = Loc.loopHead ∧ s.backendChan.length ≠ c.backendBuffer ∧
      s1 = { s with loc := Loc.wait } ∧ o = []) ∨
    (s.loc = Loc.drain ∧ ∃ ev rest, s.backendChan = ev :: rest ∧
      s1 = { s with backendChan := rest } ∧ o = [Obs.discarded ev]) ∨
    (s.loc = Loc.drain ∧ s.backendChan = [] ∧
      s1 = { s with loc := Loc.sendOverflow } ∧ o = []) := by
  obtain ⟨loc, q, d, w⟩ := s
  cases loc
  case loopHead =>
    by_cases hq : q.length = c.backendBuffer
    · simp [step, hq] at h
      simp [hq, h.1.symm, h.2.symm]
    · simp [step, hq] at h
      simp [hq, h.1.symm, h.2.symm]
  case drain =>
    cases q with
    | nil =>
      simp [step] at h
      simp [h.1.symm, h.2.symm]
    | cons ev rest =>
      simp [step] at h
      refine Or.inr (Or.inr (Or.inl ⟨rfl, ev, rest, rfl, h.1.symm, h.2.symm⟩))
  all_goals simp [step] at h

theorem step_recvBackend_inv (c : Session) (s s1 : Pump) (o : List Obs)
    (h : step c s Action.recvBackend = some (s1, o)) :
    s.loc = Loc.wait ∧ ∃ ev rest, s.backendChan = ev :: rest ∧ o = [Obs.received ev] ∧
      s1.backendChan = rest ∧ s1.done = s.done ∧ s1.watching = s.watching ∧
      ((HasPrefix ev.Path c.absName = false ∧ s1.loc = Loc.panicked) ∨
       (HasPrefix ev.Path c.absName = true ∧
          c.ignore.ShouldIgnore (c.f.unrooted ev.Path) = true ∧ s1.loc = Loc.loopHead) ∨
       (HasPrefix ev.Path c.absName = true ∧
          c.ignore.ShouldIgnore (c.f.unrooted ev.Path) = false ∧
          s1.loc = Loc.sendEvent (canonical c ev))) := by
  obtain ⟨loc, q, d, w⟩ := s
  cases loc
  case wait =>
    cases q with
    | nil => simp [step] at h
    | cons ev rest =>
      refine ⟨rfl, ev, rest, rfl, ?_⟩
      by_cases hp : HasPrefix ev.Path c.absName = true
      · by_cases hi : c.ignore.ShouldIgnore (c.f.unrooted ev.Path) = true
        · simp [step, hp, hi] at h
          simp [hp, hi, h.1.symm, h.2.symm]
        · simp [step, hp, hi] at h
          simp [hp, hi, h.1.symm, h.2.symm, canonical]
      · simp [step, hp] at h
        simp [hp, h.1.symm, h.2.symm]
  all_goals simp [step] at h

theorem step_recvDone_inv (c : Session) (s s1 : Pump) (o : List Obs)
    (h : step c s Action.recvDone = some (s1, o)) :
    s.loc = Loc.wait ∧ s.done = true ∧
      s1 = { s with loc := Loc.stopped, watching := false } ∧ o = [] := by
  obtain ⟨loc, q, d, w⟩ := s
  cases loc
  case wait =>
    cases d <;> simp [step] at h
    simp [h.1.symm, h.2.symm]
  all_goals simp [step] at h

theorem step_consume_inv (c : Session) (s s1 : Pump) (o : List Obs)
    (h : step c s Action.consume = some (s1, o)) :
    (s.loc = Loc.sendOverflow ∧ s1 = { s with loc := Loc.wait } ∧ o = [Obs.sentOverflow]) ∨
    (∃ e, s.loc = Loc.sendEvent e ∧ s1 = { s with loc := Loc.loopHead } ∧
      o = [Obs.sentEvent e]) := by
  obtain ⟨loc, q, d, w⟩ := s
  cases loc
  case sendOverflow =>
    simp [step] at h
    simp [h.1.symm, h.2.symm]
  case sendEvent e =>
    simp [step] at h
    simp [h.1.symm, h.2.symm]
  all_goals simp [step] at h

theorem step_notify_inv (c : Session) (s s1 : Pump) (o : List Obs) (ev : EventInfo)
    (h : step c s (Action.notify ev) = some (s1, o)) :
    s.loc ≠ Loc.panicked ∧ s.watching = true ∧
      ((s.backendChan.length < c.backendBuffer ∧
          s1 = { s with backendChan := s.backendChan ++ [ev] } ∧ o = [Obs.queued ev]) ∨
       (¬ s.backendChan.length < c.backendBuffer ∧ s1 = s ∧ o = [Obs.lost ev])) := by
  simp only [step] at h
  by_cases hg : s.loc = Loc.panicked ∨ s.watching = false
  · simp [hg] at h
  · rw [if_neg hg] at h
    push_neg at hg
    refine ⟨hg.1, by simpa using hg.2, ?_⟩
    by_cases hl : s.backendChan.length < c.backendBuffer
    · simp [hl] at h
      simp [hl, h.1.symm, h.2.symm]
    · simp [hl] at h
      simp [hl, h.1.symm, h.2.symm]

theorem step_cancel_inv (c : Session) (s s1 : Pump) (o : List Obs)
    (h : step c s Action.cancel = some (s1, o)) :
    s.loc ≠ Loc.panicked ∧ s1 = { s with done := true } ∧ o = [] := by
  simp only [step] at h
  by_cases hg : s.loc = Loc.panicked
  · simp [hg] at h
  · simp [hg] at h
    simp [hg, h.1.symm, h.2.symm]

/-- While the pump waits in the `select` or has returned, nothing but the backend's own
moves is seen before the next raw event is taken. -/
theorem quiet_before_receive (c : Session) (as : List Action) :
    ∀ (s s' : Pump) (tr : List Obs), (s.loc = Loc.wait ∨ s.loc = Loc.stopped) →
      exec c s as = some (s', tr) →
      ∀ o ∈ beforeReceive tr, (∃ ev, o = Obs.queued ev) ∨ (∃ ev, o = Obs.lost ev) := by
  induction as with
  | nil =>
    intro s s' tr _ h
    simp only [exec, Option.some.injEq, Prod.mk.injEq] at h
    obtain ⟨-, rfl⟩ := h
    simp [beforeReceive]
  | cons a as ih =>
    intro s s' tr hq h
    rw [exec_cons_some] at h
    obtain ⟨s1, o, os, hs, he, rfl⟩ := h
    cases a with
    | pump =>
      rcases step_pump_inv c s s1 o hs with h1 | h1 | h1 | h1 <;>
        rcases hq with hq | hq <;> simp [hq] at h1
    | recvBackend =>
      obtain ⟨-, ev, rest, -, rfl, -⟩ := step_recvBackend_inv c s s1 o hs
      simp [beforeReceive]
    | recvDone =>
      obtain ⟨-, -, rfl, rfl⟩ := step_recvDone_inv c s s1 o hs
      exact ih _ _ _ (Or.inr rfl) he
    | consume =>
      rcases step_consume_inv c s s1 o hs with h1 | ⟨e, h1⟩ <;>
        rcases hq with hq | hq <;> simp [hq] at h1
    | notify ev =>
      obtain ⟨-, -, h1 | h1⟩ := step_notify_inv c s s1 o ev hs
      · obtain ⟨-, rfl, rfl⟩ := h1
        intro o ho
        simp only [List.singleton_append, beforeReceive, List.mem_cons] at ho
        rcases ho with rfl | ho
        · exact Or.inl ⟨ev, rfl⟩
        · refine ih _ _ _ ?_ he o ho
          exact hq
      · obtain ⟨-, rfl, rfl⟩ := h1
        intro o ho
        simp only [List.singleton_append, beforeReceive, List.mem_cons] at ho
        rcases ho with rfl | ho
        · exact Or.inr ⟨ev, rfl⟩
        · refine ih _ _ _ ?_ he o ho
          exact hq
    | cancel =>
      obtain ⟨-, rfl, rfl⟩ := step_cancel_inv c s s1 o hs
      refine ih _ _ _ ?_ he
      exact hq

theorem backend_only_silent (l : List Obs)
    (h : ∀ o ∈ l, (∃ ev, o = Obs.queued ev) ∨ (∃ ev, o = Obs.lost ev)) :
    output l = [] ∧ discardedOf l = [] ∧ Obs.overflow ∉ l := by
  induction l with
  | nil => simp [output, discardedOf]
  | cons o os ih =>
    have ih' := ih (fun x hx => h x (List.mem_cons_of_mem _ hx))
    rcases h o (List.mem_cons_self _ _) with ⟨ev, rfl⟩ | ⟨ev, rfl⟩ <;>
      simp [output, discardedOf, ih']

/-- The loop `outer` from a channel holding `q`, with no other actor moving: one round per
buffered raw event and one that finds the channel empty. -/
theorem drain_run (c : Session) (q : List EventInfo) :
    ∀ s : Pump, s.loc = Loc.drain → s.backendChan = q →
      exec c s (List.replicate (q.length + 1) Action.pump) =
        some ({ s with loc := Loc.sendOverflow, backendChan := [] }, q.map Obs.discarded) := by
  induction q with
  | nil =>
    intro s hl hq
    obtain ⟨loc, q, d, w⟩ := s
    simp only at hl hq
    subst hl hq
    simp [exec, step]
  | cons ev rest ih =>
    intro s hl hq
    obtain ⟨loc, q, d, w⟩ := s
    simp only at hl hq
    subst hl hq
    rw [List.length_cons, List.replicate_succ, exec_cons_some]
    refine ⟨⟨Loc.drain, rest, d, w⟩, [Obs.discarded ev], rest.map Obs.discarded, ?_, ?_, ?_⟩
    · simp [step]
    · exact ih ⟨Loc.drain, rest, d, w⟩ rfl rfl
    · simp

/-- From a full channel at the top of the loop, and on through the loop `outer` and the
send of line 70, whatever the other actors do: before the next raw event is taken the
output is nothing or the root event, and once a raw event is taken it is the root event
and the raw events buffered at the start have all been dropped. -/
theorem overflowing_before_receive (c : Session) (as : List Action) :
    ∀ (s s' : Pump) (tr : List Obs),
      ((s.loc = Loc.loopHead ∧ s.backendChan.length = c.backendBuffer) ∨ s.loc = Loc.drain ∨
        s.loc = Loc.sendOverflow) →
      exec c s as = some (s', tr) →
      (output (beforeReceive tr) = [] ∨ output (beforeReceive tr) = [rootEvent]) ∧
      (dequeued tr ≠ [] → output (beforeReceive tr) = [rootEvent] ∧
        (s.loc ≠ Loc.sendOverflow → s.backendChan <+: discardedOf (beforeReceive tr))) := by
  induction as with
  | nil =>
    intro s s' tr _ h
    simp only [exec, Option.some.injEq, Prod.mk.injEq] at h
    obtain ⟨-, rfl⟩ := h
    simp [beforeReceive, output, dequeued]
  | cons a as ih =>
    intro s s' tr hp h
    rw [exec_cons_some] at h
    obtain ⟨s1, o, os, hs, he, rfl⟩ := h
    cases a with
    | pump =>
      rcases step_pump_inv c s s1 o hs with h1 | h1 | h1 | h1
      · obtain ⟨hl, -, rfl, rfl⟩ := h1
        have := ih _ _ _ (Or.inr (Or.inl rfl)) he
        simpa [beforeReceive, output, dequeued, discardedOf, hl] using this
      · obtain ⟨hl, hne, -, -⟩ := h1
        rcases hp with hp | hp | hp
        · exact absurd hp.2 hne
        · rw [hl] at hp; cases hp
        · rw [hl] at hp; cases hp
      · obtain ⟨hl, ev, rest, hq, rfl, rfl⟩ := h1
        have := ih { s with backendChan := rest } _ _ (Or.inr (Or.inl hl)) he
        simp only [List.singleton_append, beforeReceive, output, dequeued, discardedOf, hq]
        refine ⟨this.1, fun hd => ⟨(this.2 hd).1, fun _ => ?_⟩⟩
        have hpre := (this.2 hd).2 (by simp [hl])
        simpa using hpre
      · obtain ⟨hl, hq, rfl, rfl⟩ := h1
        have := ih _ _ _ (Or.inr (Or.inr rfl)) he
        simp only [List.nil_append, hq]
        exact ⟨this.1, fun hd => ⟨(this.2 hd).1, fun _ => List.nil_prefix⟩⟩
    | recvBackend =>
      obtain ⟨hl, -⟩ := step_recvBackend_inv c s s1 o hs
      rcases hp with hp | hp | hp <;> simp [hl] at hp
    | recvDone =>
      obtain ⟨hl, -⟩ := step_recvDone_inv c s s1 o hs
      rcases hp with hp | hp | hp <;> simp [hl] at hp
    | consume =>
      rcases step_consume_inv c s s1 o hs with h1 | ⟨e, h1⟩
      · obtain ⟨hl, rfl, rfl⟩ := h1
        have hq := backend_only_silent _ (quiet_before_receive c as _ _ _ (Or.inl rfl) he)
        simp [beforeReceive, output, hq.1, hl]
      · obtain ⟨hl, -⟩ := h1
        rcases hp with hp | hp | hp <;> simp [hl] at hp
    | notify ev =>
      obtain ⟨-, -, h1 | h1⟩ := step_notify_inv c s s1 o ev hs
      · obtain ⟨hlt, rfl, rfl⟩ := h1
        have hp' : s.loc = Loc.drain ∨ s.loc = Loc.sendOverflow := by
          rcases hp with hp | hp | hp
          · omega
          · exact Or.inl hp
          · exact Or.inr hp
        have := ih { s with backendChan := s.backendChan ++ [ev] } _ _ (Or.inr hp') he
        simp only [List.singleton_append, beforeReceive, output, dequeued, discardedOf]
        refine ⟨this.1, fun hd => ⟨(this.2 hd).1, fun hne => ?_⟩⟩
        exact (List.prefix_append _ _).trans ((this.2 hd).2 hne)
      · obtain ⟨-, rfl, rfl⟩ := h1
        have := ih _ _ _ hp he
        simpa [beforeReceive, output, dequeued, discardedOf] using this
    | cancel =>
      obtain ⟨-, rfl, rfl⟩ := step_cancel_inv c s s1 o hs
      have := ih { s with done := true } _ _ hp he
      simpa [beforeReceive, output, dequeued, discardedOf] using this

/-- Without a detection at line 60 the pump never enters the loop `outer` nor the send of
line 70: nothing is dropped and no root event is sent. -/
theorem no_overflow_no_recovery (c : Session) (as : List Action) :
    ∀ (s s' : Pump) (tr : List Obs), s.loc ≠ Loc.drain → s.loc ≠ Loc.sendOverflow →
      exec c s as = some (s', tr) → Obs.overflow ∉ tr →
      Obs.sentOverflow ∉ tr ∧ discardedOf tr = [] ∧
        s'.loc ≠ Loc.drain ∧ s'.loc ≠ Loc.sendOverflow := by
  induction as with
  | nil =>
    intro s s' tr h1 h2 h _
    simp only [exec, Option.some.injEq, Prod.mk.injEq] at h
    obtain ⟨rfl, rfl⟩ := h
    simp [discardedOf, h1, h2]
  | cons a as ih =>
    intro s s' tr hd hso h hno
    rw [exec_cons_some] at h
    obtain ⟨s1, o, os, hs, he, rfl⟩ := h
    rw [List.mem_append, not_or] at hno
    have key : s1.loc ≠ Loc.drain ∧ s1.loc ≠ Loc.sendOverflow ∧ Obs.sentOverflow ∉ o ∧
        discardedOf o = [] := by
      cases a with
      | pump =>
        rcases step_pump_inv c s s1 o hs with h1 | h1 | h1 | h1
        · obtain ⟨-, -, -, rfl⟩ := h1
          simp at hno
        · obtain ⟨-, -, rfl, rfl⟩ := h1
          simp [discardedOf]
        · exact absurd h1.1 hd
        · exact absurd h1.1 hd
      | recvBackend =>
        obtain ⟨-, ev, rest, -, rfl, -, -, -, h1 | h1 | h1⟩ := step_recvBackend_inv c s s1 o hs
        · simp [h1.2, discardedOf]
        · simp [h1.2.2, discardedOf]
        · simp [h1.2.2, discardedOf]
      | recvDone =>
        obtain ⟨-, -, rfl, rfl⟩ := step_recvDone_inv c s s1 o hs
        simp [discardedOf]
      | consume =>
        rcases step_consume_inv c s s1 o hs with h1 | ⟨e, h1⟩
        · exact absurd h1.1 hso
        · obtain ⟨-, rfl, rfl⟩ := h1
          simp [discardedOf]
      | notify ev =>
        obtain ⟨-, -, h1 | h1⟩ := step_notify_inv c s s1 o ev hs
        · obtain ⟨-, rfl, rfl⟩ := h1
          simp [discardedOf, hd, hso]
        · obtain ⟨-, rfl, rfl⟩ := h1
          simp [discardedOf, hd, hso]
      | cancel =>
        obtain ⟨-, rfl, rfl⟩ := step_cancel_inv c s s1 o hs
        simp [discardedOf, hd, hso]
    obtain ⟨k1, k2, k3, k4⟩ := key
    obtain ⟨i1, i2, i3, i4⟩ := ih s1 s' os k1 k2 he hno.2
    refine ⟨?_, ?_, i3, i4⟩
    · rw [List.mem_append, not_or]
      exact ⟨k3, i1⟩
    · rw [discardedOf_append, k4, i2]
      rfl

/-- The recovery with no other actor but the consumer moving: from a full channel at the
top of the loop the pump detects the overflow, drops every buffered raw event and sends the
root event. -/
theorem overflow_run (c : Session) (s : Pump) (hloc : s.loc = Loc.loopHead)
    (hlen : s.backendChan.length = c.backendBuffer) :
    exec c s (List.replicate (c.backendBuffer + 2) Action.pump ++ [Action.consume]) =
      some ({ s with loc := Loc.wait, backendChan := [] },
        Obs.overflow :: (s.backendChan.map Obs.discarded ++ [Obs.sentOverflow])) := by
  obtain ⟨loc, q, d, w⟩ := s
  simp only at hloc hlen
  subst hloc
  have h1 : step c ⟨Loc.loopHead, q, d, w⟩ Action.pump =
      some (⟨Loc.drain, q, d, w⟩, [Obs.overflow]) := by
    simp [step, hlen]
  have h2 := drain_run c q ⟨Loc.drain, q, d, w⟩ rfl rfl
  have h3 : exec c ⟨Loc.sendOverflow, [], d, w⟩ [Action.consume] =
      some (⟨Loc.wait, [], d, w⟩, [Obs.sentOverflow]) := by
    simp [exec, step]
  have h4 : exec c ⟨Loc.loopHead, q, d, w⟩ (Action.pump ::
      List.replicate (q.length + 1) Action.pump) =
      some (⟨Loc.sendOverflow, [], d, w⟩, [Obs.overflow] ++ q.map Obs.discarded) := by
    rw [exec_cons_some]
    exact ⟨_, _, _, h1, h2, rfl⟩
  have h5 := exec_append c _ _ _ _ _ _ _ h4 h3
  rw [← hlen]
  simpa [List.replicate_succ] using h5

theorem output_discarded (l : List EventInfo) : output (l.map Obs.discarded) = [] := by
  induction l with
  | nil => rfl
  | cons x xs ih => simpa [output] using ih

/-- C1: at the top of the loop with the channel full, the pump alone runs the loop `outer`
over every buffered raw event and then sends the root event: afterwards the channel is empty
and the output of the step is the root event alone; while it is in that send it neither
takes a raw event nor returns. Whatever the other actors do meanwhile, the output before
the next raw event is taken is the root event alone, and the raw events buffered at the
start are dropped. With fewer raw events buffered than the capacity the pump goes to the
`select` with nothing seen, only moves of the backend are seen before it takes a raw event,
and without a detection no root event is sent and nothing is dropped. -/
theorem overflow_recovery (c : Session) (s : Pump) (hloc : s.loc = Loc.loopHead) :
    (s.backendChan.length = c.backendBuffer →
      exec c s (List.replicate (c.backendBuffer + 2) Action.pump ++ [Action.consume]) =
        some ({ s with loc := Loc.wait, backendChan := [] },
          Obs.overflow :: (s.backendChan.map Obs.discarded ++ [Obs.sentOverflow])) ∧
      output (Obs.overflow :: (s.backendChan.map Obs.discarded ++ [Obs.sentOverflow])) =
        [⟨".", EventType.NonRemove⟩] ∧
      (∀ a ∈ [Action.pump, Action.recvBackend, Action.recvDone],
        step c { s with loc := Loc.sendOverflow, backendChan := [] } a = none) ∧
      (∀ as s' pre ev post, exec c s as = some (s', pre ++ Obs.received ev :: post) →
        dequeued pre = [] →
        output pre = [⟨".", EventType.NonRemove⟩] ∧ s.backendChan <+: discardedOf pre)) ∧
    (s.backendChan.length < c.backendBuffer →
      step c s Action.pump = some ({ s with loc := Loc.wait }, []) ∧
      (∀ as s' tr, exec c { s with loc := Loc.wait } as = some (s', tr) →
        ∀ o ∈ beforeReceive tr, (∃ ev, o = Obs.queued ev) ∨ (∃ ev, o = Obs.lost ev)) ∧
      (∀ as s' tr, exec c s as = some (s', tr) → Obs.overflow ∉ tr →
        Obs.sentOverflow ∉ tr ∧ discardedOf tr = [])) := by
  obtain ⟨loc, q, d, w⟩ := s
  simp only at hloc
  subst hloc
  constructor
  · intro hlen
    simp only at hlen
    refine ⟨?_, ?_, ?_, ?_⟩
    · exact overflow_run c ⟨Loc.loopHead, q, d, w⟩ rfl hlen
    · rw [show Obs.overflow :: (q.map Obs.discarded ++ [Obs.sentOverflow]) =
        ([Obs.overflow] ++ q.map Obs.discarded) ++ [Obs.sentOverflow] by simp, output_append]
      have hq : ∀ l : List EventInfo, output (l.map Obs.discarded) = [] := by
        intro l
        induction l with
        | nil => rfl
        | cons x xs ih => simpa [output] using ih
      rw [output_append, hq]
      rfl
    · intro a ha
      simp only [List.mem_cons, List.mem_singleton, List.not_mem_nil, or_false] at ha
      rcases ha with rfl | rfl | rfl <;> simp [step]
    · intro as s' pre ev post he hpre
      have h := overflowing_before_receive c as _ _ _ (Or.inl ⟨rfl, hlen⟩) he
      rw [beforeReceive_split pre post ev hpre] at h
      have hne : dequeued (pre ++ Obs.received ev :: post) ≠ [] := by
        simp [dequeued_append, dequeued]
      exact ⟨(h.2 hne).1, (h.2 hne).2 (by simp)⟩
  · intro hlen
    simp only at hlen
    refine ⟨?_, ?_, ?_⟩
    · have : q.length ≠ c.backendBuffer := by omega
      simp [step, this]
    · intro as s' tr he
      exact quiet_before_receive c as _ s' tr (Or.inl rfl) he
    · intro as s' tr he hno
      have h := no_overflow_no_recovery c as _ _ _ (by simp) (by simp) he hno
      exact ⟨h.1, h.2.1⟩

/-- Witness of C1: a session with room for two raw events, with two buffered and with one
buffered. -/
theorem overflow_recovery_witness :
    exec smallSession ⟨Loc.loopHead, [created "/r/a", created "/r/b"], false, true⟩
      (List.replicate 4 Action.pump ++ [Action.consume]) =
      some (⟨Loc.wait, [], false, true⟩,
        [Obs.overflow, Obs.discarded (created "/r/a"), Obs.discarded (created "/r/b"),
          Obs.sentOverflow]) ∧
    step smallSession ⟨Loc.loopHead, [created "/r/a"], false, true⟩ Action.pump =
      some (⟨Loc.wait, [created "/r/a"], false, true⟩, []) :=
  ⟨((overflow_recovery smallSession
      ⟨Loc.loopHead, [created "/r/a", created "/r/b"], false, true⟩ rfl).1 rfl).1,
   ((overflow_recovery smallSession
      ⟨Loc.loopHead, [created "/r/a"], false, true⟩ rfl).2 (by decide)).1⟩

theorem relayed_append (c : Session) (l1 l2 : List EventInfo) :
    relayed c (l1 ++ l2) = relayed c l1 ++ relayed c l2 := by
  simp [relayed]

theorem relayed_single (c : Session) (ev : EventInfo) :
    relayed c [ev] =
      if c.ignore.ShouldIgnore (c.f.unrooted ev.Path) then [] else [canonical c ev] := by
  by_cases h : c.ignore.ShouldIgnore (c.f.unrooted ev.Path) = true
  · simp [relayed, h]
  · simp [relayed, h, canonical]

/-- One move, other than the one that leaves the loop `outer`, adds to what is sent or held
in a send exactly what the raw event taken in it is relayed as. -/
theorem step_output_pending (c : Session) (s s1 : Pump) (a : Action) (o : List Obs)
    (hs : step c s a = some (s1, o)) (hd : s.loc ≠ Loc.drain)
    (hin : ∀ ev ∈ dequeued o, HasPrefix ev.Path c.absName = true) :
    output o ++ pending s1.loc = pending s.loc ++ relayed c (dequeued o) := by
  cases a with
  | pump =>
    rcases step_pump_inv c s s1 o hs with h1 | h1 | h1 | h1
    · obtain ⟨hl, -, rfl, rfl⟩ := h1
      simp [output, dequeued, pending, hl, relayed]
    · obtain ⟨hl, -, rfl, rfl⟩ := h1
      simp [output, dequeued, pending, hl, relayed]
    · exact absurd h1.1 hd
    · exact absurd h1.1 hd
  | recvBackend =>
    obtain ⟨hl, ev, rest, -, rfl, -, -, -, h1⟩ := step_recvBackend_inv c s s1 o hs
    have hp := hin ev (by simp [dequeued])
    rcases h1 with h1 | h1 | h1
    · rw [h1.1] at hp
      cases hp
    · simp [output, dequeued, pending, hl, h1.2.2, relayed_single, h1.2.1]
    · simp [output, dequeued, pending, hl, h1.2.2, relayed_single, h1.2.1]
  | recvDone =>
    obtain ⟨hl, -, rfl, rfl⟩ := step_recvDone_inv c s s1 o hs
    simp [output, dequeued, pending, hl, relayed]
  | consume =>
    rcases step_consume_inv c s s1 o hs with h1 | ⟨e, h1⟩
    · obtain ⟨hl, rfl, rfl⟩ := h1
      simp [output, dequeued, pending, hl, relayed]
    · obtain ⟨hl, rfl, rfl⟩ := h1
      simp [output, dequeued, pending, hl, relayed]
  | notify ev =>
    obtain ⟨-, -, h1 | h1⟩ := step_notify_inv c s s1 o ev hs
    · obtain ⟨-, rfl, rfl⟩ := h1
      simp [output, dequeued, relayed]
    · obtain ⟨-, rfl, rfl⟩ := h1
      simp [output, dequeued, relayed]
  | cancel =>
    obtain ⟨-, rfl, rfl⟩ := step_cancel_inv c s s1 o hs
    simp [output, dequeued, relayed]

/-- A move that sees no detection does not enter the loop `outer`. -/
theorem step_not_drain (c : Session) (s s1 : Pump) (a : Action) (o : List Obs)
    (hs : step c s a = some (s1, o)) (hd : s.loc ≠ Loc.drain) (hno : Obs.overflow ∉ o) :
    s1.loc ≠ Loc.drain := by
  cases a with
  | pump =>
    rcases step_pump_inv c s s1 o hs with h1 | h1 | h1 | h1
    · obtain ⟨-, -, -, rfl⟩ := h1
      simp at hno
    · obtain ⟨-, -, rfl, -⟩ := h1
      simp
    · exact absurd h1.1 hd
    · exact absurd h1.1 hd
  | recvBackend =>
    obtain ⟨-, ev, rest, -, -, -, -, -, h1 | h1 | h1⟩ := step_recvBackend_inv c s s1 o hs
    · simp [h1.2]
    · simp [h1.2.2]
    · simp [h1.2.2]
  | recvDone =>
    obtain ⟨-, -, rfl, -⟩ := step_recvDone_inv c s s1 o hs
    simp
  | consume =>
    rcases step_consume_inv c s s1 o hs with h1 | ⟨e, h1⟩
    · obtain ⟨-, rfl, -⟩ := h1
      simp
    · obtain ⟨-, rfl, -⟩ := h1
      simp
  | notify ev =>
    obtain ⟨-, -, h1 | h1⟩ := step_notify_inv c s s1 o ev hs
    · obtain ⟨-, rfl, -⟩ := h1
      exact hd
    · obtain ⟨-, rfl, -⟩ := h1
      exact hd
  | cancel =>
    obtain ⟨-, rfl, -⟩ := step_cancel_inv c s s1 o hs
    exact hd

/-- Over a run without a detection, what was sent and what is held in a send is what the
raw events taken so far are relayed as, in their order. -/
theorem run_output_pending (c : Session) (as : List Action) :
    ∀ (s s' : Pump) (tr : List Obs), s.loc ≠ Loc.drain →
      exec c s as = some (s', tr) → Obs.overflow ∉ tr →
      (∀ ev ∈ dequeued tr, HasPrefix ev.Path c.absName = true) →
      output tr ++ pending s'.loc = pending s.loc ++ relayed c (dequeued tr) := by
  induction as with
  | nil =>
    intro s s' tr _ h _ _
    simp only [exec, Option.some.injEq, Prod.mk.injEq] at h
    obtain ⟨rfl, rfl⟩ := h
    simp [output, dequeued, relayed]
  | cons a as ih =>
    intro s s' tr hd h hno hin
    rw [exec_cons_some] at h
    obtain ⟨s1, o, os, hs, he, rfl⟩ := h
    rw [List.mem_append, not_or] at hno
    rw [dequeued_append] at hin
    have h1 := step_output_pending c s s1 a o hs hd
      (fun ev hev => hin ev (List.mem_append_left _ hev))
    have h2 := ih s1 s' os (step_not_drain c s s1 a o hs hd hno.1) he hno.2
      (fun ev hev => hin ev (List.mem_append_right _ hev))
    rw [output_append, dequeued_append, relayed_append, List.append_assoc, h2,
      ← List.append_assoc, h1, List.append_assoc]

/-- The pump works off a channel that is not full: every buffered raw event is taken, in
order, no detection occurs, and the output is what the raw events are relayed as. -/
theorem schedule_run (c : Session) (evs : List EventInfo) :
    ∀ s : Pump, s.loc = Loc.loopHead → s.backendChan = evs →
      evs.length < c.backendBuffer →
      (∀ ev ∈ evs, HasPrefix ev.Path c.absName = true) →
      ∃ tr, exec c s (schedule c evs) = some ({ s with backendChan := [] }, tr) ∧
        dequeued tr = evs ∧ Obs.overflow ∉ tr ∧ output tr = relayed c evs := by
  induction evs with
  | nil =>
    intro s hl hq _ _
    obtain ⟨loc, q, d, w⟩ := s
    simp only at hl hq
    subst hl hq
    exact ⟨[], by simp [schedule, exec], rfl, by simp, rfl⟩
  | cons ev rest ih =>
    intro s hl hq hlen hin
    obtain ⟨loc, q, d, w⟩ := s
    simp only at hl hq
    subst hl hq
    have hne : rest.length + 1 ≠ c.backendBuffer := by
      simp only [List.length_cons] at hlen
      omega
    have hp := hin ev (List.mem_cons_self _ _)
    have hlen' : rest.length < c.backendBuffer := by
      simp only [List.length_cons] at hlen
      omega
    obtain ⟨tr, h1, h2, h3, h4⟩ := ih ⟨Loc.loopHead, rest, d, w⟩ rfl rfl hlen'
      (fun x hx => hin x (List.mem_cons_of_mem _ hx))
    have hpump : exec c ⟨Loc.loopHead, ev :: rest, d, w⟩ [Action.pump] =
        some (⟨Loc.wait, ev :: rest, d, w⟩, []) := by
      simp [exec, step, hne]
    by_cases hi : c.ignore.ShouldIgnore (c.f.unrooted ev.Path) = true
    · have hrecv : exec c ⟨Loc.wait, ev :: rest, d, w⟩ [Action.recvBackend] =
          some (⟨Loc.loopHead, rest, d, w⟩, [Obs.received ev]) := by
        simp [exec, step, hp, hi]
      have h12 := exec_append c _ _ _ _ _ _ _ hpump hrecv
      have h123 := exec_append c _ _ _ _ _ _ _ h12 h1
      refine ⟨Obs.received ev :: tr, ?_, ?_, ?_, ?_⟩
      · simpa [schedule, hi] using h123
      · simp [dequeued, h2]
      · simpa using h3
      · simp [output, h4, relayed, hi]
    · have hrecv : exec c ⟨Loc.wait, ev :: rest, d, w⟩ [Action.recvBackend, Action.consume] =
          some (⟨Loc.loopHead, rest, d, w⟩,
            [Obs.received ev, Obs.sentEvent (canonical c ev)]) := by
        simp [exec, step, hp, hi, canonical]
      have h12 := exec_append c _ _ _ _ _ _ _ hpump hrecv
      have h123 := exec_append c _ _ _ _ _ _ _ h12 h1
      refine ⟨Obs.received ev :: Obs.sentEvent (canonical c ev) :: tr, ?_, ?_, ?_, ?_⟩
      · simpa [schedule, hi] using h123
      · simp [dequeued, h2]
      · simpa using h3
      · simp [output, h4, relayed, hi, canonical]

/-- C7: in every run from the top of the loop in which no overflow is detected and every
raw event taken passes the check of line 75, the events sent, followed by the one held in an
unfinished send, are the raw events taken so far with the ignored ones left out and each
other one mapped to its relative path and the type of its code, in the same order. Such runs
exist for every buffered sequence shorter than the capacity, and two equal raw events in a
row that are not ignored give two equal events in a row. -/
theorem relay_in_order (c : Session) :
    (∀ (s s' : Pump) (as : List Action) (tr : List Obs), s.loc = Loc.loopHead →
      exec c s as = some (s', tr) → Obs.overflow ∉ tr →
      (∀ ev ∈ dequeued tr, HasPrefix ev.Path c.absName = true) →
      output tr ++ pending s'.loc = relayed c (dequeued tr)) ∧
    (∀ (evs : List EventInfo) (s : Pump), s.loc = Loc.loopHead → s.backendChan = evs →
      evs.length < c.backendBuffer →
      (∀ ev ∈ evs, HasPrefix ev.Path c.absName = true) →
      ∃ tr, exec c s (schedule c evs) = some ({ s with backendChan := [] }, tr) ∧
        dequeued tr = evs ∧ Obs.overflow ∉ tr ∧ output tr = relayed c evs) ∧
    (∀ (ev : EventInfo) (s : Pump), s.loc = Loc.loopHead → s.backendChan = [ev, ev] →
      2 < c.backendBuffer → HasPrefix ev.Path c.absName = true →
      c.ignore.ShouldIgnore (c.f.unrooted ev.Path) = false →
      ∃ tr, exec c s [Action.pump, Action.recvBackend, Action.consume, Action.pump,
          Action.recvBackend, Action.consume] = some ({ s with backendChan := [] }, tr) ∧
        output tr = [⟨c.f.unrooted ev.Path, eventType c.rmEventMask ev.Event⟩,
          ⟨c.f.unrooted ev.Path, eventType c.rmEventMask ev.Event⟩]) := by
  refine ⟨?_, fun evs s => schedule_run c evs s, ?_⟩
  · intro s s' as tr hl he hno hin
    have h := run_output_pending c as s s' tr (by simp [hl]) he hno hin
    simpa [hl, pending] using h
  · intro ev s hl hq hcap hp hi
    obtain ⟨tr, h1, -, -, h4⟩ := schedule_run c [ev, ev] s hl hq (by simpa using hcap)
      (by simpa using hp)
    refine ⟨tr, ?_, ?_⟩
    · simpa [schedule, hi] using h1
    · simpa [relayed, hi] using h4

/-- Witness of C7: the session of the tests with `/r/a`, `/r/ignored`, `/r/a` buffered. -/
theorem relay_in_order_witness :
    ∃ tr, exec testSession
        ⟨Loc.loopHead, [created "/r/a", created "/r/ignored", created "/r/a"], false, true⟩
        (schedule testSession [created "/r/a", created "/r/ignored", created "/r/a"]) =
        some (⟨Loc.loopHead, [], false, true⟩, tr) ∧
      dequeued tr = [created "/r/a", created "/r/ignored", created "/r/a"] ∧
      Obs.overflow ∉ tr ∧
      output tr = [⟨"a", EventType.NonRemove⟩, ⟨"a", EventType.NonRemove⟩] :=
  (relay_in_order testSession).2.1
    [created "/r/a", created "/r/ignored", created "/r/a"]
    ⟨Loc.loopHead, [created "/r/a", created "/r/ignored", created "/r/a"], false, true⟩
    rfl rfl (by decide) (by decide)

/-- C2: when the `select` takes a raw event that passes the check of line 75, an ignored
one sends the pump back to the top of the loop with nothing sent, and any other is sent once,
as the event with its relative path; in every run in which it is the only raw event taken
and no overflow is detected, the output with the event held in a send is nothing for an
ignored raw event and that one event otherwise. In the session of the tests the creations of
`file` and `ignored` give the single event for `file`. -/
theorem ignore_filtering :
    (∀ (c : Session) (s : Pump) (ev : EventInfo) (rest : List EventInfo),
      s.loc = Loc.wait → s.backendChan = ev :: rest →
      HasPrefix ev.Path c.absName = true →
      (c.ignore.ShouldIgnore (c.f.unrooted ev.Path) = true →
        step c s Action.recvBackend =
          some ({ s with loc := Loc.loopHead, backendChan := rest }, [Obs.received ev])) ∧
      (c.ignore.ShouldIgnore (c.f.unrooted ev.Path) = false →
        exec c s [Action.recvBackend, Action.consume] =
          some ({ s with loc := Loc.loopHead, backendChan := rest },
            [Obs.received ev,
              Obs.sentEvent ⟨c.f.unrooted ev.Path, eventType c.rmEventMask ev.Event⟩])) ∧
      (∀ (as : List Action) (s' : Pump) (tr : List Obs), exec c s as = some (s', tr) →
        dequeued tr = [ev] → Obs.overflow ∉ tr →
        output tr ++ pending s'.loc =
          if c.ignore.ShouldIgnore (c.f.unrooted ev.Path) then []
          else [⟨c.f.unrooted ev.Path, eventType c.rmEventMask ev.Event⟩])) ∧
    (exec testSession start
        [Action.notify (created "/r/file"), Action.notify (created "/r/ignored"),
          Action.pump, Action.recvBackend, Action.consume,
          Action.pump, Action.recvBackend, Action.pump] =
      some (⟨Loc.wait, [], false, true⟩,
        [Obs.queued (created "/r/file"), Obs.queued (created "/r/ignored"),
          Obs.received (created "/r/file"), Obs.sentEvent ⟨"file", EventType.NonRemove⟩,
          Obs.received (created "/r/ignored")]) ∧
      output [Obs.queued (created "/r/file"), Obs.queued (created "/r/ignored"),
          Obs.received (created "/r/file"), Obs.sentEvent ⟨"file", EventType.NonRemove⟩,
          Obs.received (created "/r/ignored")] = [⟨"file", EventType.NonRemove⟩]) := by
  refine ⟨?_, by decide, by decide⟩
  intro c s ev rest hl hq hp
  obtain ⟨loc, q, d, w⟩ := s
  simp only at hl hq
  subst hl hq
  refine ⟨fun hi => ?_, fun hi => ?_, ?_⟩
  · simp [step, hp, hi]
  · simp [exec, step, hp, hi]
  · intro as s' tr he hdq hno
    have h := run_output_pending c as _ s' tr (by simp) he hno
      (by rw [hdq]; simpa using hp)
    rw [hdq] at h
    simpa [pending, relayed_single, canonical] using h

/-- Witness of C2: the session of the tests at the `select`, first with `/r/ignored` and
then with `/r/file` at the head of the channel. -/
theorem ignore_filtering_witness :
    step testSession ⟨Loc.wait, [created "/r/ignored"], false, true⟩ Action.recvBackend =
      some (⟨Loc.loopHead, [], false, true⟩, [Obs.received (created "/r/ignored")]) ∧
    exec testSession ⟨Loc.wait, [created "/r/file"], false, true⟩
        [Action.recvBackend, Action.consume] =
      some (⟨Loc.loopHead, [], false, true⟩,
        [Obs.received (created "/r/file"), Obs.sentEvent ⟨"file", EventType.NonRemove⟩]) :=
  ⟨(ignore_filtering.1 testSession ⟨Loc.wait, [created "/r/ignored"], false, true⟩
      (created "/r/ignored") [] rfl rfl (by decide)).1 (by decide),
   (ignore_filtering.1 testSession ⟨Loc.wait, [created "/r/file"], false, true⟩
      (created "/r/file") [] rfl rfl (by decide)).2.1 (by decide)⟩

/-- C3 (the code at the failing input): watching `/r/foo`, a raw event for `/r/foobar/x`,
which is neither the watched root nor below it, gets a verdict from the pre-filter and is
relayed by the pump: both checks compare leading characters only. A raw event for
`/r/bar/x` is rejected by both, as the panic texts intend for every path outside the
watched root. -/
theorem boundary_check_accepts_sibling :
    Join "/r" "foo" = "/r/foo" ∧
    ¬ Within (Join "/r" "foo") "/r/foobar/x" ∧
    absShouldIgnore (newBasicFilesystem "/r") (Join "/r" "foo") (fakeMatcher "ignored")
      "/r/foobar/x" = some false ∧
    exec ⟨10, (inotifyMasks linux).rmEventMask, newBasicFilesystem "/r", Join "/r" "foo",
        fakeMatcher "ignored"⟩ start
        [Action.notify (created "/r/foobar/x"), Action.pump, Action.recvBackend,
          Action.consume] =
      some (⟨Loc.loopHead, [], false, true⟩,
        [Obs.queued (created "/r/foobar/x"), Obs.received (created "/r/foobar/x"),
          Obs.sentEvent ⟨"foobar/x", EventType.NonRemove⟩]) ∧
    ¬ Within (Join "/r" "foo") "/r/bar/x" ∧
    absShouldIgnore (newBasicFilesystem "/r") (Join "/r" "foo") (fakeMatcher "ignored")
      "/r/bar/x" = none ∧
    exec ⟨10, (inotifyMasks linux).rmEventMask, newBasicFilesystem "/r", Join "/r" "foo",
        fakeMatcher "ignored"⟩ start
        [Action.notify (created "/r/bar/x"), Action.pump, Action.recvBackend] =
      some (⟨Loc.panicked, [], false, true⟩,
        [Obs.queued (created "/r/bar/x"), Obs.received (created "/r/bar/x")]) := by
  decide

theorem trimPrefix_append (a b : List Char) : trimPrefix (a ++ b) a = b := by
  simp [trimPrefix]

theorem unrooted_below (root rel : String) (h : rel ≠ "") :
    unrooted root (root ++ "/" ++ rel) = rel := by
  have hd : rel.data ≠ [] := by
    intro h0
    apply h
    cases rel
    simp_all
  have h1 : (root ++ "/" ++ rel).data = root.data ++ ('/' :: rel.data) := by
    simp [String.data_append]
  have h2 : trimPrefix ('/' :: rel.data) ['/'] = rel.data :=
    trimPrefix_append ['/'] rel.data
  simp only [unrooted, h1, trimPrefix_append, h2, hd, if_false]

/-- A session with room for at least two raw events relays a first raw event that passes
the check of line 75 and is not ignored as the event named by `unrooted`. -/
theorem relay_first (c : Session) (ev : EventInfo) (hcap : 1 < c.backendBuffer)
    (hp : HasPrefix ev.Path c.absName = true)
    (hi : c.ignore.ShouldIgnore (c.f.unrooted ev.Path) = false) :
    exec c start [Action.notify ev, Action.pump, Action.recvBackend, Action.consume] =
      some (⟨Loc.loopHead, [], false, true⟩,
        [Obs.queued ev, Obs.received ev,
          Obs.sentEvent ⟨c.f.unrooted ev.Path, eventType c.rmEventMask ev.Event⟩]) := by
  have h0 : 0 < c.backendBuffer := by omega
  have h1 : ¬ (1 = c.backendBuffer) := by omega
  simp [exec, step, start, h0, h1, hp, hi]

/-- C8 (claim as stated fails): on the filesystem at `/r` with the watch name `sub` the
watched root is `/r/sub`; the raw event for `/r/sub/file` lies below it, its path relative
to the watched root is `file`, and the event sent is named `sub/file`. No `unrooted`
whatever can name the events relative to the watched root for both watch names `.` and
`sub`, since it is given the path alone. -/
theorem event_name_not_relative_to_watched_root :
    Join "/r" "sub" = "/r/sub" ∧
    Within (Join "/r" "sub") "/r/sub/file" ∧
    unrooted (Join "/r" "sub") "/r/sub/file" = "file" ∧
    exec ⟨10, (inotifyMasks linux).rmEventMask, newBasicFilesystem "/r", Join "/r" "sub",
        fakeMatcher "ignored"⟩ start
        [Action.notify (created "/r/sub/file"), Action.pump, Action.recvBackend,
          Action.consume] =
      some (⟨Loc.loopHead, [], false, true⟩,
        [Obs.queued (created "/r/sub/file"), Obs.received (created "/r/sub/file"),
          Obs.sentEvent ⟨"sub/file", EventType.NonRemove⟩]) ∧
    ¬ ∃ u : String → String, ∀ name ∈ [".", "sub"],
      exec ⟨10, (inotifyMasks linux).rmEventMask, ⟨"/r", u⟩, Join "/r" name,
          ⟨fun _ => false⟩⟩ start
          [Action.notify (created "/r/sub/file"), Action.pump, Action.recvBackend,
            Action.consume] =
        some (⟨Loc.loopHead, [], false, true⟩,
          [Obs.queued (created "/r/sub/file"), Obs.received (created "/r/sub/file"),
            Obs.sentEvent ⟨unrooted (Join "/r" name) "/r/sub/file",
              EventType.NonRemove⟩]) := by
  refine ⟨by decide, by decide, by decide, by decide, ?_⟩
  rintro ⟨u, h⟩
  have h1 := h "." (by simp)
  have h2 := h "sub" (by simp)
  have p1 : HasPrefix "/r/sub/file" (Join "/r" ".") = true := by decide
  have p2 : HasPrefix "/r/sub/file" (Join "/r" "sub") = true := by decide
  have c1 : (1 : Nat) < 10 := by decide
  rw [relay_first _ _ c1 p1 rfl] at h1
  rw [relay_first _ _ c1 p2 rfl] at h2
  simp only [Option.some.injEq, Prod.mk.injEq, List.cons.injEq, Obs.sentEvent.injEq,
    Event.mk.injEq, true_and, and_true] at h1 h2
  have e1 : unrooted (Join "/r" ".") "/r/sub/file" = "sub/file" := by decide
  have e2 : unrooted (Join "/r" "sub") "/r/sub/file" = "file" := by decide
  rw [e1] at h1
  rw [e2] at h2
  have h3 : "sub/file" = "file" := by
    rw [← h1.1, ← h2.1]
  exact absurd h3 (by decide)

/-- C8 (amended): for every filesystem, watch name and raw event that passes the check of
line 75 and is not ignored, the event sent is named `unrooted` of the raw path, whatever the
watch name; with the `unrooted` of the filesystem at `root` the name of a raw path
`root/rel` is `rel`, the path relative to the root of the filesystem. The event of line 70
is named `"."` for every watch name. -/
theorem event_name_relative_to_filesystem_root :
    (∀ (f : BasicFilesystem) (name : String) (ignore : Matcher) (cap rm : Nat) (s : Pump)
      (ev : EventInfo) (rest : List EventInfo),
      s.loc = Loc.wait → s.backendChan = ev :: rest →
      HasPrefix ev.Path (Join f.URI name) = true →
      ignore.ShouldIgnore (f.unrooted ev.Path) = false →
      exec ⟨cap, rm, f, Join f.URI name, ignore⟩ s [Action.recvBackend, Action.consume] =
        some ({ s with loc := Loc.loopHead, backendChan := rest },
          [Obs.received ev, Obs.sentEvent ⟨f.unrooted ev.Path, eventType rm ev.Event⟩])) ∧
    (∀ root rel : String, rel ≠ "" →
      (newBasicFilesystem root).unrooted (root ++ "/" ++ rel) = rel) ∧
    (∀ (f : BasicFilesystem) (name : String) (ignore : Matcher) (cap rm : Nat) (s : Pump),
      s.loc = Loc.sendOverflow →
      ∃ s', step ⟨cap, rm, f, Join f.URI name, ignore⟩ s Action.consume =
          some (s', [Obs.sentOverflow]) ∧
        (output [Obs.sentOverflow]).map Event.Name = ["."]) := by
  refine ⟨?_, fun root rel h => unrooted_below root rel h, ?_⟩
  · intro f name ignore cap rm s ev rest hl hq hp hi
    obtain ⟨loc, q, d, w⟩ := s
    simp only at hl hq
    subst hl hq
    simp [exec, step, hp, hi]
  · intro f name ignore cap rm s hl
    obtain ⟨loc, q, d, w⟩ := s
    simp only at hl
    subst hl
    exact ⟨⟨Loc.wait, q, d, w⟩, by simp [step], rfl⟩

/-- Witness of C8 (amended): the filesystem at `/r` watched at `sub`, and the raw event for
`/r/sub/file`. -/
theorem event_name_relative_to_filesystem_root_witness :
    exec ⟨10, 0xe40, newBasicFilesystem "/r", Join "/r" "sub", fakeMatcher "ignored"⟩
        ⟨Loc.wait, [created "/r/sub/file"], false, true⟩
        [Action.recvBackend, Action.consume] =
      some (⟨Loc.loopHead, [], false, true⟩,
        [Obs.received (created "/r/sub/file"),
          Obs.sentEvent ⟨"sub/file", EventType.NonRemove⟩]) ∧
    (newBasicFilesystem "/r").unrooted ("/r" ++ "/" ++ "sub/file") = "sub/file" :=
  ⟨event_name_relative_to_filesystem_root.1 (newBasicFilesystem "/r") "sub"
      (fakeMatcher "ignored") 10 0xe40 ⟨Loc.wait, [created "/r/sub/file"], false, true⟩
      (created "/r/sub/file") [] rfl rfl (by decide) (by decide),
   event_name_relative_to_filesystem_root.2.1 "/r" "sub/file" (by decide)⟩


/-- A burst of the backend while the pump does not move: the channel takes raw events up
to its capacity and the others are lost; nothing else is seen. -/
theorem notify_burst (c : Session) (evs : List EventInfo) :
    ∀ s : Pump, s.loc ≠ Loc.panicked → s.watching = true →
      s.backendChan.length ≤ c.backendBuffer →
      ∃ tr, exec c s (evs.map Action.notify) =
          some ({ s with backendChan := (s.backendChan ++ evs).take c.backendBuffer }, tr) ∧
        (∀ o ∈ tr, (∃ ev, o = Obs.queued ev) ∨ (∃ ev, o = Obs.lost ev)) := by
  induction evs with
  | nil =>
    intro s _ _ hlen
    refine ⟨[], ?_, by simp⟩
    simp [exec, List.take_of_length_le hlen]
  | cons ev evs ih =>
    intro s hl hw hlen
    obtain ⟨loc, q, d, w⟩ := s
    simp only at hl hw hlen
    subst hw
    by_cases hlt : q.length < c.backendBuffer
    · obtain ⟨tr, h1, h2⟩ := ih ⟨loc, q ++ [ev], d, true⟩ hl rfl (by simp; omega)
      refine ⟨Obs.queued ev :: tr, ?_, ?_⟩
      · rw [List.map_cons, exec_cons_some]
        refine ⟨⟨loc, q ++ [ev], d, true⟩, [Obs.queued ev], tr, ?_, ?_, rfl⟩
        · simp [step, hl, hlt]
        · simpa using h1
      · intro o ho
        rcases List.mem_cons.mp ho with rfl | ho
        · exact Or.inl ⟨ev, rfl⟩
        · exact h2 o ho
    · obtain ⟨tr, h1, h2⟩ := ih ⟨loc, q, d, true⟩ hl rfl hlen
      have hq : q.length = c.backendBuffer := by omega
      refine ⟨Obs.lost ev :: tr, ?_, ?_⟩
      · rw [List.map_cons, exec_cons_some]
        refine ⟨⟨loc, q, d, true⟩, [Obs.lost ev], tr, ?_, ?_, rfl⟩
        · simp [step, hl, hlt]
        · simpa [List.take_left' hq] using h1
      · intro o ho
        rcases List.mem_cons.mp ho with rfl | ho
        · exact Or.inr ⟨ev, rfl⟩
        · exact h2 o ho

/-- One move keeps the balance of detections and root events: a detection starts a
recovery, the send of line 70 ends it. -/
theorem step_recovery_balance (c : Session) (s s1 : Pump) (a : Action) (o : List Obs)
    (hs : step c s a = some (s1, o)) :
    o.count Obs.sentOverflow + recovering s1.loc = o.count Obs.overflow + recovering s.loc := by
  cases a with
  | pump =>
    rcases step_pump_inv c s s1 o hs with h1 | h1 | h1 | h1
    · obtain ⟨hl, -, rfl, rfl⟩ := h1
      simp [recovering, hl]
    · obtain ⟨hl, -, rfl, rfl⟩ := h1
      simp [recovering, hl]
    · obtain ⟨hl, ev, rest, -, rfl, rfl⟩ := h1
      simp [recovering, hl]
    · obtain ⟨hl, -, rfl, rfl⟩ := h1
      simp [recovering, hl]
  | recvBackend =>
    obtain ⟨hl, ev, rest, -, rfl, -, -, -, h1 | h1 | h1⟩ := step_recvBackend_inv c s s1 o hs
    · simp [recovering, hl, h1.2]
    · simp [recovering, hl, h1.2.2]
    · simp [recovering, hl, h1.2.2]
  | recvDone =>
    obtain ⟨hl, -, rfl, rfl⟩ := step_recvDone_inv c s s1 o hs
    simp [recovering, hl]
  | consume =>
    rcases step_consume_inv c s s1 o hs with h1 | ⟨e, h1⟩
    · obtain ⟨hl, rfl, rfl⟩ := h1
      simp [recovering, hl]
    · obtain ⟨hl, rfl, rfl⟩ := h1
      simp [recovering, hl]
  | notify ev =>
    obtain ⟨-, -, h1 | h1⟩ := step_notify_inv c s s1 o ev hs
    · obtain ⟨-, rfl, rfl⟩ := h1
      simp
    · obtain ⟨-, rfl, rfl⟩ := h1
      simp
  | cancel =>
    obtain ⟨-, rfl, rfl⟩ := step_cancel_inv c s s1 o hs
    simp

theorem run_recovery_balance (c : Session) (as : List Action) :
    ∀ (s s' : Pump) (tr : List Obs), exec c s as = some (s', tr) →
      tr.count Obs.sentOverflow + recovering s'.loc =
        tr.count Obs.overflow + recovering s.loc := by
  induction as with
  | nil =>
    intro s s' tr h
    simp only [exec, Option.some.injEq, Prod.mk.injEq] at h
    obtain ⟨rfl, rfl⟩ := h
    simp
  | cons a as ih =>
    intro s s' tr h
    rw [exec_cons_some] at h
    obtain ⟨s1, o, os, hs, he, rfl⟩ := h
    have h1 := step_recovery_balance c s s1 a o hs
    have h2 := ih s1 s' os he
    rw [List.count_append, List.count_append]
    omega

/-- C9 (claim as stated fails): in the session of the tests, with capacity 10, a run with 50
creations in which the backend fills the channel twice, each time before a test of line 60,
has the root event twice in its output. -/
theorem overflow_event_not_exactly_once :
    ∃ s tr, exec testSession start twoBursts = some (s, tr) ∧
      (twoBursts.filter (fun a => a matches Action.notify _)).length = 50 ∧
      output tr = [⟨".", EventType.NonRemove⟩, ⟨"file10", EventType.NonRemove⟩,
        ⟨".", EventType.NonRemove⟩] ∧
      tr.count Obs.sentOverflow = 2 ∧ tr.count Obs.overflow = 2 := by
  cases h : exec testSession start twoBursts with
  | none => exact absurd h (by decide)
  | some r =>
    refine ⟨r.1, r.2, rfl, by decide, ?_, ?_, ?_⟩
    · have : (exec testSession start twoBursts).map (fun r => output r.2) =
          some [⟨".", EventType.NonRemove⟩, ⟨"file10", EventType.NonRemove⟩,
            ⟨".", EventType.NonRemove⟩] := by decide
      rw [h] at this
      simpa using this
    · have : (exec testSession start twoBursts).map
          (fun r => r.2.count Obs.sentOverflow) = some 2 := by decide
      rw [h] at this
      simpa using this
    · have : (exec testSession start twoBursts).map
          (fun r => r.2.count Obs.overflow) = some 2 := by decide
      rw [h] at this
      simpa using this

/-- A loss that line 60 does not see: in the session of the tests the pump passes line 60
while the channel is empty, the backend then offers 50 creations, of which 40 are lost, and
the `select` takes the first. Every later test of line 60 finds fewer than ten raw events,
so no overflow is detected and no root event is sent. -/
theorem loss_in_select_undetected :
    ∃ s tr, exec testSession start burstAfterCheck = some (s, tr) ∧
      (burstAfterCheck.filter (fun a => a matches Action.notify _)).length = 50 ∧
      (tr.filter (fun o => o matches Obs.lost _)).length = 40 ∧
      tr.count Obs.overflow = 0 ∧ tr.count Obs.sentOverflow = 0 ∧
      (output tr).count ⟨".", EventType.NonRemove⟩ = 0 := by
  cases h : exec testSession start burstAfterCheck with
  | none => exact absurd h (by decide)
  | some r =>
    refine ⟨r.1, r.2, rfl, by decide, ?_, ?_, ?_, ?_⟩
    · have : (exec testSession start burstAfterCheck).map
          (fun r => (r.2.filter (fun o => o matches Obs.lost _)).length) = some 40 := by
        decide
      rw [h] at this
      simpa using this
    · have : (exec testSession start burstAfterCheck).map
          (fun r => r.2.count Obs.overflow) = some 0 := by decide
      rw [h] at this
      simpa using this
    · have : (exec testSession start burstAfterCheck).map
          (fun r => r.2.count Obs.sentOverflow) = some 0 := by decide
      rw [h] at this
      simpa using this
    · have : (exec testSession start burstAfterCheck).map
          (fun r => (output r.2).count ⟨".", EventType.NonRemove⟩) = some 0 := by decide
      rw [h] at this
      simpa using this

theorem backend_only_counts (l : List Obs)
    (h : ∀ o ∈ l, (∃ ev, o = Obs.queued ev) ∨ (∃ ev, o = Obs.lost ev)) :
    l.count Obs.sentOverflow = 0 ∧ l.count Obs.overflow = 0 := by
  constructor
  · rw [List.count_eq_zero]
    intro hm
    rcases h _ hm with ⟨ev, he⟩ | ⟨ev, he⟩ <;> cases he
  · rw [List.count_eq_zero]
    intro hm
    rcases h _ hm with ⟨ev, he⟩ | ⟨ev, he⟩ <;> cases he

theorem discarded_counts (l : List EventInfo) :
    (l.map Obs.discarded).count Obs.sentOverflow = 0 ∧
    (l.map Obs.discarded).count Obs.overflow = 0 ∧
    discardedOf (l.map Obs.discarded) = l := by
  induction l with
  | nil => simp [discardedOf]
  | cons x xs ih => simp [discardedOf, ih]

/-- A burst that fills the channel while the pump is at the top of its loop, with no other
actor but the consumer moving afterwards: the test of line 60 detects the overflow, what the
channel held is dropped and the root event is sent, once. -/
theorem burst_then_recovery (c : Session) (s : Pump) (evs : List EventInfo)
    (hl : s.loc = Loc.loopHead) (hw : s.watching = true)
    (hq : s.backendChan.length ≤ c.backendBuffer)
    (hfill : c.backendBuffer ≤ s.backendChan.length + evs.length) :
    ∃ tr, exec c s (evs.map Action.notify ++
        (List.replicate (c.backendBuffer + 2) Action.pump ++ [Action.consume])) =
        some ({ s with loc := Loc.wait, backendChan := [] }, tr) ∧
      output tr = [⟨".", EventType.NonRemove⟩] ∧
      tr.count Obs.sentOverflow = 1 ∧ tr.count Obs.overflow = 1 ∧
      discardedOf tr = (s.backendChan ++ evs).take c.backendBuffer := by
  obtain ⟨loc, q0, d, w⟩ := s
  simp only at hl hw hq hfill
  subst hl hw
  obtain ⟨tr1, h1, h2⟩ := notify_burst c evs ⟨Loc.loopHead, q0, d, true⟩ (by simp) rfl hq
  have hlen : ((q0 ++ evs).take c.backendBuffer).length = c.backendBuffer := by
    rw [List.length_take, List.length_append]
    omega
  simp only at h1
  generalize (q0 ++ evs).take c.backendBuffer = q at hlen h1 ⊢
  have h3 := overflow_run c ⟨Loc.loopHead, q, d, true⟩ rfl hlen
  have h4 := exec_append c _ _ _ _ _ _ _ h1 h3
  have hs := backend_only_silent tr1 h2
  have hc := backend_only_counts tr1 h2
  have hd := discarded_counts q
  refine ⟨_, h4, ?_, ?_, ?_, ?_⟩
  · rw [output_append, hs.1]
    simp [output, output_append, output_discarded, rootEvent]
  · rw [List.count_append, hc.1]
    simp [List.count_cons, List.count_append, hd.1]
  · rw [List.count_append, hc.2]
    simp [List.count_cons, List.count_append, hd.2.1]
  · rw [discardedOf_append, hs.2.1]
    simp [discardedOf, discardedOf_append, hd.2.2]

/-- The same burst while the pump is in the send of line 82: once the consumer has taken
the event held, the test of line 60 detects the overflow and the root event follows. -/
theorem burst_in_send_then_recovery (c : Session) (s : Pump) (e : Event)
    (evs : List EventInfo) (hl : s.loc = Loc.sendEvent e) (hw : s.watching = true)
    (hq : s.backendChan.length ≤ c.backendBuffer)
    (hfill : c.backendBuffer ≤ s.backendChan.length + evs.length) :
    ∃ tr, exec c s (evs.map Action.notify ++ (Action.consume ::
        (List.replicate (c.backendBuffer + 2) Action.pump ++ [Action.consume]))) =
        some ({ s with loc := Loc.wait, backendChan := [] }, tr) ∧
      output tr = [e, ⟨".", EventType.NonRemove⟩] ∧
      tr.count Obs.sentOverflow = 1 ∧ tr.count Obs.overflow = 1 ∧
      discardedOf tr = (s.backendChan ++ evs).take c.backendBuffer := by
  obtain ⟨loc, q0, d, w⟩ := s
  simp only at hl hw hq hfill
  subst hl hw
  obtain ⟨tr1, h1, h2⟩ := notify_burst c evs ⟨Loc.sendEvent e, q0, d, true⟩ (by simp) rfl hq
  have hlen : ((q0 ++ evs).take c.backendBuffer).length = c.backendBuffer := by
    rw [List.length_take, List.length_append]
    omega
  simp only at h1
  generalize (q0 ++ evs).take c.backendBuffer = q at hlen h1 ⊢
  have h3 := overflow_run c ⟨Loc.loopHead, q, d, true⟩ rfl hlen
  have h5 : exec c ⟨Loc.sendEvent e, q, d, true⟩ (Action.consume ::
      (List.replicate (c.backendBuffer + 2) Action.pump ++ [Action.consume])) =
      some (⟨Loc.wait, [], d, true⟩, [Obs.sentEvent e] ++
        Obs.overflow :: (q.map Obs.discarded ++ [Obs.sentOverflow])) := by
    rw [exec_cons_some]
    exact ⟨⟨Loc.loopHead, q, d, true⟩, [Obs.sentEvent e], _, by simp [step], h3, rfl⟩
  have h4 := exec_append c _ _ _ _ _ _ _ h1 h5
  have hs := backend_only_silent tr1 h2
  have hc := backend_only_counts tr1 h2
  have hd := discarded_counts q
  refine ⟨_, h4, ?_, ?_, ?_, ?_⟩
  · rw [output_append, hs.1]
    simp [output, output_append, output_discarded, rootEvent]
  · rw [List.count_append, hc.1]
    simp [List.count_cons, List.count_append, hd.1]
  · rw [List.count_append, hc.2]
    simp [List.count_cons, List.count_append, hd.2.1]
  · rw [discardedOf_append, hs.2.1]
    simp [discardedOf, discardedOf_append, hd.2.2]

/-- From the send of line 82 with the channel full, whatever the other actors do: once the
next raw event is taken, the output before it is the event held and then the root event. -/
theorem sending_full_before_receive (c : Session) (e : Event) (as : List Action) :
    ∀ (s s' : Pump) (tr : List Obs), s.loc = Loc.sendEvent e →
      s.backendChan.length = c.backendBuffer →
      exec c s as = some (s', tr) → dequeued tr ≠ [] →
      output (beforeReceive tr) = [e, rootEvent] := by
  induction as with
  | nil =>
    intro s s' tr _ _ h hd
    simp only [exec, Option.some.injEq, Prod.mk.injEq] at h
    obtain ⟨-, rfl⟩ := h
    exact absurd rfl hd
  | cons a as ih =>
    intro s s' tr hl hlen h hd
    rw [exec_cons_some] at h
    obtain ⟨s1, o, os, hs, he, rfl⟩ := h
    cases a with
    | pump =>
      rcases step_pump_inv c s s1 o hs with h1 | h1 | h1 | h1 <;> simp [hl] at h1
    | recvBackend =>
      obtain ⟨h1, -⟩ := step_recvBackend_inv c s s1 o hs
      simp [hl] at h1
    | recvDone =>
      obtain ⟨h1, -⟩ := step_recvDone_inv c s s1 o hs
      simp [hl] at h1
    | consume =>
      rcases step_consume_inv c s s1 o hs with h1 | ⟨e', h1⟩
      · simp [hl] at h1
      · obtain ⟨hl', rfl, rfl⟩ := h1
        rw [hl] at hl'
        cases hl'
        have hd' : dequeued os ≠ [] := by simpa [dequeued] using hd
        have h2 := overflowing_before_receive c as { s with loc := Loc.loopHead } s' os
          (Or.inl ⟨rfl, hlen⟩) he
        simp [beforeReceive, output, (h2.2 hd').1]
    | notify ev =>
      obtain ⟨-, -, h1 | h1⟩ := step_notify_inv c s s1 o ev hs
      · omega
      · obtain ⟨-, rfl, rfl⟩ := h1
        have hd' : dequeued os ≠ [] := by simpa [dequeued] using hd
        simpa [beforeReceive, output] using ih s1 s' os hl hlen he hd'
    | cancel =>
      obtain ⟨-, rfl, rfl⟩ := step_cancel_inv c s s1 o hs
      have hd' : dequeued os ≠ [] := by simpa [dequeued] using hd
      simpa [beforeReceive, output] using ih { s with done := true } s' os hl hlen he hd'

/-- C9 (amended): in every run the root events sent, with one more while a recovery is
under way, are as many as the overflows detected at line 60: one per detection, not one per
run. When the offers of the backend fill the channel while the pump is at the top of its
loop, about to run the test of line 60, or in the send of line 82 that leads to it, and the
pump and the consumer then move, that test detects the overflow, what the channel held is
dropped, and the root event is sent, once. And a raw event lost while the pump is at the top
of its loop, in the loop `outer` or in the send of line 82 is followed by the root event
before the next raw event is taken, whatever the other actors do. -/
theorem overflow_event_per_detection (c : Session) :
    (∀ (as : List Action) (s' : Pump) (tr : List Obs), exec c start as = some (s', tr) →
      tr.count Obs.sentOverflow + recovering s'.loc = tr.count Obs.overflow) ∧
    (∀ (s : Pump) (evs : List EventInfo), s.loc = Loc.loopHead → s.watching = true →
      s.backendChan.length ≤ c.backendBuffer →
      c.backendBuffer ≤ s.backendChan.length + evs.length →
      ∃ tr, exec c s (evs.map Action.notify ++
          (List.replicate (c.backendBuffer + 2) Action.pump ++ [Action.consume])) =
          some ({ s with loc := Loc.wait, backendChan := [] }, tr) ∧
        output tr = [⟨".", EventType.NonRemove⟩] ∧
        tr.count Obs.sentOverflow = 1 ∧ tr.count Obs.overflow = 1 ∧
        discardedOf tr = (s.backendChan ++ evs).take c.backendBuffer) ∧
    (∀ (s : Pump) (e : Event) (evs : List EventInfo), s.loc = Loc.sendEvent e →
      s.watching = true → s.backendChan.length ≤ c.backendBuffer →
      c.backendBuffer ≤ s.backendChan.length + evs.length →
      ∃ tr, exec c s (evs.map Action.notify ++ (Action.consume ::
          (List.replicate (c.backendBuffer + 2) Action.pump ++ [Action.consume]))) =
          some ({ s with loc := Loc.wait, backendChan := [] }, tr) ∧
        output tr = [e, ⟨".", EventType.NonRemove⟩] ∧
        tr.count Obs.sentOverflow = 1 ∧ tr.count Obs.overflow = 1 ∧
        discardedOf tr = (s.backendChan ++ evs).take c.backendBuffer) ∧
    (∀ (s s1 : Pump) (ev0 : EventInfo), s.backendChan.length ≤ c.backendBuffer →
      (s.loc = Loc.loopHead ∨ s.loc = Loc.drain ∨ ∃ e, s.loc = Loc.sendEvent e) →
      step c s (Action.notify ev0) = some (s1, [Obs.lost ev0]) →
      ∀ (as : List Action) (s' : Pump) (pre post : List Obs) (ev : EventInfo),
        exec c s1 as = some (s', pre ++ Obs.received ev :: post) → dequeued pre = [] →
        output pre = held s.loc ++ [⟨".", EventType.NonRemove⟩]) := by
  refine ⟨?_, ?_, ?_, ?_⟩
  · intro as s' tr h
    have := run_recovery_balance c as start s' tr h
    simpa [start, recovering] using this
  · intro s evs hl hw hq hfill
    exact burst_then_recovery c s evs hl hw hq hfill
  · intro s e evs hl hw hq hfill
    exact burst_in_send_then_recovery c s e evs hl hw hq hfill
  · intro s s1 ev0 hq hloc hs as s' pre post ev he hpre
    obtain ⟨-, -, h1 | h1⟩ := step_notify_inv c s s1 _ ev0 hs
    · obtain ⟨-, -, ho⟩ := h1
      simp at ho
    · obtain ⟨hfull, rfl, -⟩ := h1
      have hlen : s1.backendChan.length = c.backendBuffer := by omega
      have hne : dequeued (pre ++ Obs.received ev :: post) ≠ [] := by
        simp [dequeued_append, dequeued]
      have hsplit := beforeReceive_split pre post ev hpre
      rcases hloc with hl | hl | ⟨e, hl⟩
      · have h := overflowing_before_receive c as _ _ _ (Or.inl ⟨hl, hlen⟩) he
        rw [hsplit] at h
        simpa [held, hl, rootEvent] using (h.2 hne).1
      · have h := overflowing_before_receive c as _ _ _ (Or.inr (Or.inl hl)) he
        rw [hsplit] at h
        simpa [held, hl, rootEvent] using (h.2 hne).1
      · have h := sending_full_before_receive c e as _ _ _ hl hlen he hne
        rw [hsplit] at h
        simpa [held, hl, rootEvent] using h

/-- Witness of C9 (amended): capacity 10 and a burst of 50 creations before the first test
of line 60, and the 50th of them, which is lost while the pump is at the top of its loop. -/
theorem overflow_event_per_detection_witness :
    (∃ tr, exec testSession start ((creations 0 50).map Action.notify ++
        (List.replicate 12 Action.pump ++ [Action.consume])) =
        some (⟨Loc.wait, [], false, true⟩, tr) ∧
      output tr = [⟨".", EventType.NonRemove⟩] ∧
      tr.count Obs.sentOverflow = 1 ∧ tr.count Obs.overflow = 1 ∧
      discardedOf tr = creations 0 10) ∧
    (∀ (as : List Action) (s' : Pump) (pre post : List Obs) (ev : EventInfo),
      exec testSession ⟨Loc.loopHead, creations 0 10, false, true⟩ as =
        some (s', pre ++ Obs.received ev :: post) → dequeued pre = [] →
      output pre = [⟨".", EventType.NonRemove⟩]) :=
  ⟨(overflow_event_per_detection testSession).2.1 start (creations 0 50) rfl rfl
      (by decide) (by decide),
   (overflow_event_per_detection testSession).2.2.2
      ⟨Loc.loopHead, creations 0 10, false, true⟩ ⟨Loc.loopHead, creations 0 10, false, true⟩
      (created "/r/file49") (by decide) (Or.inl rfl) (by decide)⟩

/-- A pump in a send on `outChan` stays in it until the consumer receives: no move of
the pump, the backend or the owner of the context takes it out, and nothing is sent. -/
theorem blocked_without_consumer (c : Session) (as : List Action) :
    ∀ (s s' : Pump) (tr : List Obs),
      (s.loc = Loc.sendOverflow ∨ ∃ e, s.loc = Loc.sendEvent e) →
      Action.consume ∉ as → exec c s as = some (s', tr) →
      s'.loc = s.loc ∧ output tr = [] := by
  induction as with
  | nil =>
    intro s s' tr _ _ h
    simp only [exec, Option.some.injEq, Prod.mk.injEq] at h
    obtain ⟨rfl, rfl⟩ := h
    exact ⟨rfl, rfl⟩
  | cons a as ih =>
    intro s s' tr hb hc h
    rw [exec_cons_some] at h
    obtain ⟨s1, o, os, hs, he, rfl⟩ := h
    rw [List.mem_cons, not_or] at hc
    have key : s1.loc = s.loc ∧ output o = [] := by
      cases a with
      | pump =>
        rcases step_pump_inv c s s1 o hs with h1 | h1 | h1 | h1 <;>
          rcases hb with hb | ⟨e, hb⟩ <;> simp [hb] at h1
      | recvBackend =>
        obtain ⟨hl, -⟩ := step_recvBackend_inv c s s1 o hs
        rcases hb with hb | ⟨e, hb⟩ <;> simp [hb] at hl
      | recvDone =>
        obtain ⟨hl, -⟩ := step_recvDone_inv c s s1 o hs
        rcases hb with hb | ⟨e, hb⟩ <;> simp [hb] at hl
      | consume => exact absurd rfl hc.1
      | notify ev =>
        obtain ⟨-, -, h1 | h1⟩ := step_notify_inv c s s1 o ev hs
        · obtain ⟨-, rfl, rfl⟩ := h1
          exact ⟨rfl, rfl⟩
        · obtain ⟨-, rfl, rfl⟩ := h1
          exact ⟨rfl, rfl⟩
      | cancel =>
        obtain ⟨-, rfl, rfl⟩ := step_cancel_inv c s s1 o hs
        exact ⟨rfl, rfl⟩
    have h2 := ih s1 s' os (by rw [key.1]; exact hb) hc.2 he
    exact ⟨h2.1.trans key.1, by rw [output_append, key.2, h2.2]; rfl⟩

/-- A pump that has returned stays so and sends nothing. -/
theorem stopped_stays (c : Session) (as : List Action) :
    ∀ (s s' : Pump) (tr : List Obs), s.loc = Loc.stopped → exec c s as = some (s', tr) →
      s'.loc = Loc.stopped ∧ output tr = [] := by
  induction as with
  | nil =>
    intro s s' tr hl h
    simp only [exec, Option.some.injEq, Prod.mk.injEq] at h
    obtain ⟨rfl, rfl⟩ := h
    exact ⟨hl, rfl⟩
  | cons a as ih =>
    intro s s' tr hl h
    rw [exec_cons_some] at h
    obtain ⟨s1, o, os, hs, he, rfl⟩ := h
    have key : s1.loc = Loc.stopped ∧ output o = [] := by
      cases a with
      | pump =>
        rcases step_pump_inv c s s1 o hs with h1 | h1 | h1 | h1 <;> simp [hl] at h1
      | recvBackend =>
        obtain ⟨h1, -⟩ := step_recvBackend_inv c s s1 o hs
        simp [hl] at h1
      | recvDone =>
        obtain ⟨h1, -⟩ := step_recvDone_inv c s s1 o hs
        simp [hl] at h1
      | consume =>
        rcases step_consume_inv c s s1 o hs with h1 | ⟨e, h1⟩ <;> simp [hl] at h1
      | notify ev =>
        obtain ⟨-, -, h1 | h1⟩ := step_notify_inv c s s1 o ev hs
        · obtain ⟨-, rfl, rfl⟩ := h1
          exact ⟨hl, rfl⟩
        · obtain ⟨-, rfl, rfl⟩ := h1
          exact ⟨hl, rfl⟩
      | cancel =>
        obtain ⟨-, rfl, rfl⟩ := step_cancel_inv c s s1 o hs
        exact ⟨hl, rfl⟩
    have h2 := ih s1 s' os key.1 he
    exact ⟨h2.1, by rw [output_append, key.2, h2.2]; rfl⟩

theorem canStop_of_step (c : Session) (s s1 : Pump) (a : Action) (o : List Obs)
    (ha : a = Action.pump ∨ a = Action.consume ∨ a = Action.recvDone)
    (hs : step c s a = some (s1, o)) (h : CanStop c s1) : CanStop c s := by
  obtain ⟨as, h1, s', tr, h2, h3⟩ := h
  refine ⟨a :: as, ?_, s', o ++ tr, ?_, h3⟩
  · intro x hx
    rcases List.mem_cons.mp hx with rfl | hx
    · exact ha
    · exact h1 x hx
  · rw [exec_cons_some]
    exact ⟨s1, o, tr, hs, h2, rfl⟩

theorem canStop_wait (c : Session) (q : List EventInfo) (w : Bool) :
    CanStop c ⟨Loc.wait, q, true, w⟩ :=
  ⟨[Action.recvDone], by simp, ⟨Loc.stopped, q, true, false⟩, [], by simp [exec, step], rfl⟩

theorem canStop_sendOverflow (c : Session) (q : List EventInfo) (w : Bool) :
    CanStop c ⟨Loc.sendOverflow, q, true, w⟩ :=
  canStop_of_step c _ ⟨Loc.wait, q, true, w⟩ Action.consume [Obs.sentOverflow]
    (Or.inr (Or.inl rfl)) (by simp [step]) (canStop_wait c q w)

theorem canStop_drain (c : Session) (q : List EventInfo) (w : Bool) :
    CanStop c ⟨Loc.drain, q, true, w⟩ := by
  induction q with
  | nil =>
    exact canStop_of_step c _ ⟨Loc.sendOverflow, [], true, w⟩ Action.pump []
      (Or.inl rfl) (by simp [step]) (canStop_sendOverflow c [] w)
  | cons ev rest ih =>
    exact canStop_of_step c _ ⟨Loc.drain, rest, true, w⟩ Action.pump [Obs.discarded ev]
      (Or.inl rfl) (by simp [step]) ih

theorem canStop_loopHead (c : Session) (q : List EventInfo) (w : Bool) :
    CanStop c ⟨Loc.loopHead, q, true, w⟩ := by
  by_cases h : q.length = c.backendBuffer
  · exact canStop_of_step c _ ⟨Loc.drain, q, true, w⟩ Action.pump [Obs.overflow]
      (Or.inl rfl) (by simp [step, h]) (canStop_drain c q w)
  · exact canStop_of_step c _ ⟨Loc.wait, q, true, w⟩ Action.pump []
      (Or.inl rfl) (by simp [step, h]) (canStop_wait c q w)

theorem canStop_sendEvent (c : Session) (e : Event) (q : List EventInfo) (w : Bool) :
    CanStop c ⟨Loc.sendEvent e, q, true, w⟩ :=
  canStop_of_step c _ ⟨Loc.loopHead, q, true, w⟩ Action.consume [Obs.sentEvent e]
    (Or.inr (Or.inl rfl)) (by simp [step]) (canStop_loopHead c q w)

/-- C10 (claim as stated fails): in the session of the tests the pump reaches the send of
line 82 and the context is cancelled; in a session with room for two it reaches the send of
line 70 and the context is cancelled. From neither state does any run without a receive of
the consumer reach the return. -/
theorem cancel_does_not_preempt_send :
    exec testSession start
        [Action.notify (created "/r/file"), Action.pump, Action.recvBackend, Action.cancel] =
      some (⟨Loc.sendEvent ⟨"file", EventType.NonRemove⟩, [], true, true⟩,
        [Obs.queued (created "/r/file"), Obs.received (created "/r/file")]) ∧
    (¬ ∃ as : List Action, Action.consume ∉ as ∧ ∃ s' tr,
      exec testSession ⟨Loc.sendEvent ⟨"file", EventType.NonRemove⟩, [], true, true⟩ as =
        some (s', tr) ∧ s'.loc = Loc.stopped) ∧
    exec smallSession start
        [Action.notify (created "/r/a"), Action.notify (created "/r/b"), Action.pump,
          Action.pump, Action.pump, Action.pump, Action.cancel] =
      some (⟨Loc.sendOverflow, [], true, true⟩,
        [Obs.queued (created "/r/a"), Obs.queued (created "/r/b"), Obs.overflow,
          Obs.discarded (created "/r/a"), Obs.discarded (created "/r/b")]) ∧
    (¬ ∃ as : List Action, Action.consume ∉ as ∧ ∃ s' tr,
      exec smallSession ⟨Loc.sendOverflow, [], true, true⟩ as = some (s', tr) ∧
        s'.loc = Loc.stopped) := by
  refine ⟨by decide, ?_, by decide, ?_⟩
  · rintro ⟨as, hc, s', tr, he, hl⟩
    have h := blocked_without_consumer testSession as _ s' tr (Or.inr ⟨_, rfl⟩) hc he
    rw [hl] at h
    exact absurd h.1 (by simp)
  · rintro ⟨as, hc, s', tr, he, hl⟩
    have h := blocked_without_consumer smallSession as _ s' tr (Or.inl rfl) hc he
    rw [hl] at h
    exact absurd h.1 (by simp)

/-- C10 (amended): once the context is cancelled, a pump that waits in the `select` can
return in one move, with no receive of the consumer. A pump in a send on `outChan` stays
in it, sending nothing, until the consumer receives. From every state in which it has
neither returned nor panicked the pump can reach its return with moves of its own and
receives of the consumer. Once it has returned it stays so and sends nothing. -/
theorem cancellation_observed_at_select (c : Session) (s : Pump) (hdone : s.done = true) :
    (s.loc = Loc.wait →
      step c s Action.recvDone =
        some ({ s with loc := Loc.stopped, watching := false }, [])) ∧
    ((s.loc = Loc.sendOverflow ∨ ∃ e, s.loc = Loc.sendEvent e) →
      ∀ as : List Action, Action.consume ∉ as → ∀ s' tr, exec c s as = some (s', tr) →
        s'.loc = s.loc ∧ output tr = []) ∧
    (s.loc ≠ Loc.stopped → s.loc ≠ Loc.panicked → CanStop c s) ∧
    (s.loc = Loc.stopped →
      ∀ (as : List Action) (s' : Pump) (tr : List Obs), exec c s as = some (s', tr) →
        s'.loc = Loc.stopped ∧ output tr = []) := by
  obtain ⟨loc, q, d, w⟩ := s
  simp only at hdone
  subst hdone
  refine ⟨?_, ?_, ?_, ?_⟩
  · intro hl
    simp only at hl
    subst hl
    simp [step]
  · intro hb as hc s' tr he
    exact blocked_without_consumer c as _ s' tr hb hc he
  · intro h1 h2
    cases loc with
    | loopHead => exact canStop_loopHead c q w
    | drain => exact canStop_drain c q w
    | sendOverflow => exact canStop_sendOverflow c q w
    | wait => exact canStop_wait c q w
    | sendEvent e => exact canStop_sendEvent c e q w
    | stopped => exact absurd rfl h1
    | panicked => exact absurd rfl h2
  · intro hl as s' tr he
    exact stopped_stays c as _ s' tr hl he

/-- Witness of C10 (amended): the session of the tests, cancelled, at the `select` and in
the send of line 82. -/
theorem cancellation_observed_at_select_witness :
    step testSession ⟨Loc.wait, [], true, true⟩ Action.recvDone =
      some (⟨Loc.stopped, [], true, false⟩, []) ∧
    CanStop testSession ⟨Loc.sendEvent ⟨"file", EventType.NonRemove⟩, [], true, true⟩ :=
  ⟨(cancellation_observed_at_select testSession ⟨Loc.wait, [], true, true⟩ rfl).1 rfl,
   (cancellation_observed_at_select testSession
      ⟨Loc.sendEvent ⟨"file", EventType.NonRemove⟩, [], true, true⟩ rfl).2.2.1
      (by simp) (by simp)⟩

end Syncthing
